import Mathlib

/-!
Verification development for the Pipedrive MCP sales-queue server.

The definitions below are a shallow embedding of the TypeScript source
(`src/pipedrive-client.ts`, `src/sales-queue.ts`): pure fragments become Lean
functions, `async` methods that can throw become `Except`-valued functions,
the upstream HTTP API becomes an explicit capability parameter, and the
possibly-diverging pagination `while` loop is given explicit fuel (`none`
means the fuel ran out, i.e. the loop would still be running).
-/

namespace Pipedrive

/-- One page returned by the upstream paged listing call
(`PaginatedResponse`): the items plus the optional continuation cursor
`additional_data.pagination.next_cursor`. A `data` field that is missing or
empty is modelled as the empty list. -/
structure Page (α : Type) where
  data : List α
  next_cursor : Option String

/-- The `while` loop body of `SalesQueueService.fetchAllActivitiesByFilter`
and `fetchAllDealsByFilter` (they are textually identical up to the entity
type).  `fetchPage cursor batchLimit` stands for
`client.getActivitiesByFilter(filterId, batchLimit, cursor)`.  Besides the
accumulated items the embedding also records the trace of upstream calls as
`(cursor, batchLimit)` pairs, so that claims about the number and shape of
upstream calls are statable.  Fuel exhaustion returns `none`. -/
def fetchAllLoop {α : Type} (fetchPage : Option String → Nat → Page α) (limit : Nat) :
    Nat → Option String → List α → Option (List α × List (Option String × Nat))
  | 0, _, _ => none
  | fuel + 1, cursor, acc =>
    if acc.length < limit then
      let batchLimit := min 100 (limit - acc.length)
      let page := fetchPage cursor batchLimit
      let acc2 := acc ++ page.data
      match page.next_cursor with
      | none => some (acc2, [(cursor, batchLimit)])
      | some c =>
        if limit ≤ acc2.length then
          some (acc2, [(cursor, batchLimit)])
        else
          (fetchAllLoop fetchPage limit fuel (some c) acc2).map
            (fun r => (r.1, (cursor, batchLimit) :: r.2))
    else
      some (acc, [])

/-- `SalesQueueService.fetchAllActivitiesByFilter` / `fetchAllDealsByFilter`:
run the pagination loop starting with no cursor and an empty accumulator and
apply the final `activities.slice(0, limit)` truncation. -/
def fetchAllByFilter {α : Type} (fetchPage : Option String → Nat → Page α)
    (limit fuel : Nat) : Option (List α × List (Option String × Nat)) :=
  (fetchAllLoop fetchPage limit fuel none []).map (fun r => (r.1.take limit, r.2))

/-- Well-formedness of a pagination call trace, relative to the page-fetch
capability, the target `limit`, the cursor the next call must use and the
item count accumulated before that call: every call uses the cursor returned
by the previous call (the first uses `none`), requests
`min 100 (limit - accumulated)` items, happens only while `accumulated <
limit`, and the trace stops exactly when a page returns no cursor or the
accumulated count reaches the limit. -/
def traceOK {α : Type} (fetchPage : Option String → Nat → Page α) (limit : Nat) :
    Option String → Nat → List (Option String × Nat) → Prop
  | _, acc, [] => limit ≤ acc
  | cursor, acc, (c, n) :: rest =>
    acc < limit ∧ c = cursor ∧ n = min 100 (limit - acc) ∧
    (match (fetchPage cursor n).next_cursor with
     | none => rest = []
     | some c2 =>
       if limit ≤ acc + (fetchPage cursor n).data.length then rest = []
       else traceOK fetchPage limit (some c2) (acc + (fetchPage cursor n).data.length) rest)

/-- An upstream source with unlimited pages: every call is answered with
exactly the requested number of items (requests never exceed the page size
100) and a continuation cursor. -/
def unlimitedSource : Option String → Nat → Page Nat :=
  fun _ n => ⟨List.replicate n 0, some "c"⟩

/-- An upstream source holding only 30 items: the first call returns
`min requested 30` items and no continuation cursor. -/
def exhaustedSource : Option String → Nat → Page Nat :=
  fun _ n => ⟨List.replicate (min n 30) 0, none⟩

/-- JavaScript `Map.set` on an association list: overwrite the value of an
existing key in place, otherwise append the new entry (JS maps preserve
insertion order). -/
def mapSet {κ α : Type} [DecidableEq κ] (m : List (κ × α)) (k : κ) (v : α) :
    List (κ × α) :=
  if m.any (fun p => p.1 = k) then
    m.map (fun p => if p.1 = k then (k, v) else p)
  else
    m ++ [(k, v)]

/-- JavaScript `Map.get` on an association list. -/
def mapGet {κ α : Type} [DecidableEq κ] (m : List (κ × α)) (k : κ) : Option α :=
  (m.find? (fun p => p.1 = k)).map Prod.snd

/-- Chunking recursion with explicit structural fuel (each iteration of the
source loop consumes at least one element, so `l.length` is always enough
fuel). -/
def chunksGo {α : Type} : Nat → List α → List (List α)
  | 0, _ => []
  | fuel + 1, l =>
    if l.isEmpty then []
    else l.take 100 :: chunksGo fuel (l.drop 100)

/-- The batching loop `for (let i = 0; i < ids.length; i += 100)` with
`batch = ids.slice(i, i + 100)`: splits the identifier list into consecutive
chunks of at most 100. -/
def chunks100 {α : Type} (l : List α) : List (List α) :=
  chunksGo l.length l

/-- The body shared by `getPersonsBulk` / `getDealsBulk` /
`getOrganizationsBulk`: one `fetchBatch` call per chunk (in order), a `try`
/ `catch` that skips a failing chunk, and `Map.set` merging of every
returned entity under its own id (`.ok none` models a response whose
`data.data` field is missing).  Returns the merged map together with the
list of batches actually sent upstream. -/
def bulkLoop {α : Type} (getId : α → Nat)
    (fetchBatch : List Nat → Except String (Option (List α))) :
    List (List Nat) → List (Nat × α) → List (Nat × α) × List (List Nat)
  | [], m => (m, [])
  | batch :: rest, m =>
    match fetchBatch batch with
    | .ok (some es) =>
      let r := bulkLoop getId fetchBatch rest
        (es.foldl (fun acc e => mapSet acc (getId e) e) m)
      (r.1, batch :: r.2)
    | .ok none =>
      let r := bulkLoop getId fetchBatch rest m
      (r.1, batch :: r.2)
    | .error _ =>
      let r := bulkLoop getId fetchBatch rest m
      (r.1, batch :: r.2)

/-- `PipedriveClient.getPersonsBulk` / `getDealsBulk` /
`getOrganizationsBulk`: short-circuit on an empty identifier list, otherwise
run the batched loop over the 100-sized chunks starting from an empty map. -/
def getEntitiesBulk {α : Type} (getId : α → Nat)
    (fetchBatch : List Nat → Except String (Option (List α)))
    (ids : List Nat) : List (Nat × α) × List (List Nat) :=
  if ids = [] then ([], [])
  else bulkLoop getId fetchBatch (chunks100 ids) []

/-- A bulk-fetched entity for the concrete scenarios: only its id matters. -/
structure Ent where
  id : Nat
deriving DecidableEq

/-- Concrete bulk capability over ids `0..249`: the batch containing id 100
(the second chunk) fails, every other batch echoes its ids back as
entities. -/
def failSecondBatch : List Nat → Except String (Option (List Ent)) :=
  fun batch =>
    if 100 ∈ batch then .error "batch failed"
    else .ok (some (batch.map Ent.mk))

/-! ### Strings: the fragments of JS `trim` / `toLowerCase` used by the
filter-condition normalizer, modelled at the character-list level.
`Char.toLower` from core Lean is exactly the ASCII lower-casing JS performs
on the identifiers involved. -/

/-- ASCII whitespace as removed by `String.prototype.trim` (space and the
control whitespace characters). -/
def wsChar (c : Char) : Bool :=
  c.toNat = 32 || c.toNat = 9 || c.toNat = 10 || c.toNat = 11 ||
    c.toNat = 12 || c.toNat = 13

/-- `trim()` on the underlying character list: drop whitespace from the
front, then from the back. -/
def trimChars (l : List Char) : List Char :=
  (l.dropWhile wsChar).rdropWhile wsChar

/-- `value.trim()`. -/
def strTrim (s : String) : String :=
  ⟨trimChars s.data⟩

/-- `value.toLowerCase()` (ASCII fragment). -/
def strLower (s : String) : String :=
  ⟨s.data.map Char.toLower⟩

/-! ### The filter-condition data model (`FilterConditionLeaf` /
`FilterConditionGroup`) and its normalizer. -/

/-- A `field_id` value, of TS type `string | number`. -/
inductive FieldIdV where
  | num (n : Nat)
  | str (s : String)
deriving DecidableEq

/-- `FilterConditionLeaf`: a value passing `isFilterConditionLeaf` (`object`
a string, `field_id` a string or number, `operator` a string).  `value` and
`extra_value` are opaque optional payloads. -/
structure Leaf where
  object : String
  field_id : FieldIdV
  operator : String
  value : Option String
  extra_value : Option String
deriving DecidableEq

/-- A node of the condition tree: a value passing `isFilterConditionLeaf`,
one passing `isFilterConditionGroup` (`glue` a string, `conditions` an
array), or any other value (`other`), which both type guards reject. -/
inductive CondVal where
  | leaf (l : Leaf)
  | group (glue : String) (conditions : List CondVal)
  | other

/-- `isFilterConditionLeaf`. -/
def isLeafB : CondVal → Bool
  | .leaf _ => true
  | _ => false

/-- `isFilterConditionGroup`. -/
def isGroupB : CondVal → Bool
  | .group _ _ => true
  | _ => false

/-- The `conditions : Record<string, any>` argument of
`normalizeFilterConditions`: its `glue` member when it is a string, and its
`conditions` member when it is an array. -/
structure RootConditions where
  glue : Option String
  conditions : Option (List CondVal)

/-- `/^\d+$/.test s` — at least one character and all characters decimal
digits. -/
def reDigits (s : String) : Bool :=
  !s.data.isEmpty && s.data.all Char.isDigit

/-- The digit character of `n % 10` (from rendering a number with
`String(...)`). -/
def digitCh (n : Nat) : Char :=
  if n = 0 then '0' else if n = 1 then '1' else if n = 2 then '2'
  else if n = 3 then '3' else if n = 4 then '4' else if n = 5 then '5'
  else if n = 6 then '6' else if n = 7 then '7' else if n = 8 then '8'
  else '9'

/-- Decimal digit expansion with structural fuel (`n + 1` is always
enough since the argument shrinks by a factor of 10 each step). -/
def natDigitsGo : Nat → Nat → List Char
  | 0, _ => []
  | fuel + 1, n =>
    if n < 10 then [digitCh n]
    else natDigitsGo fuel (n / 10) ++ [digitCh (n % 10)]

/-- `String(n)` for a natural number: its decimal rendering. -/
def natToDecimal (n : Nat) : String :=
  ⟨natDigitsGo (n + 1) n⟩

/-- A field definition as returned by the `/xxxFields` metadata endpoints
(`PipedriveField`): numeric `id` and optional `key` / `name`. -/
structure PipedriveField where
  id : Nat
  key : Option String
  name : Option String

/-- JS truthiness of an optional string: `undefined` and `""` are falsy. -/
def strTruthy (o : Option String) : Option String :=
  match o with
  | some s => if s = "" then none else some s
  | none => none

/-- `a || b` over optional strings, with JS falsiness. -/
def jsOrOpt (a b : Option String) : Option String :=
  match strTruthy a with
  | some s => some s
  | none => strTruthy b

/-- The `switch (normalized)` synonym table of
`PipedriveClient.normalizeFilterObjectType`. -/
def objectTypeSwitch (normalized : String) : String :=
  if normalized = "deals" ∨ normalized = "deal" then "deal"
  else if normalized = "activities" ∨ normalized = "activity" then "activity"
  else if normalized = "people" ∨ normalized = "person" then "person"
  else if normalized = "org" ∨ normalized = "organization" ∨
      normalized = "organizations" then "organization"
  else if normalized = "products" ∨ normalized = "product" then "product"
  else if normalized = "projects" ∨ normalized = "project" then "project"
  else if normalized = "leads" ∨ normalized = "lead" then "lead"
  else normalized

/-- `PipedriveClient.normalizeFilterObjectType`: trim, lower-case, then map
the synonym table to a canonical singular token. -/
def normalizeFilterObjectType (value : String) : String :=
  objectTypeSwitch (strLower (strTrim value))

/-- `PipedriveClient.getFieldEndpointForObjectType`. -/
def getFieldEndpointForObjectType (objectType : String) : Option String :=
  if objectType = "activity" then some "/activityFields"
  else if objectType = "deal" then some "/dealFields"
  else if objectType = "person" then some "/personFields"
  else if objectType = "organization" then some "/organizationFields"
  else if objectType = "product" then some "/productFields"
  else if objectType = "project" then some "/projectFields"
  else none

/-- The `fieldMap` construction loop of `getFieldMapForObjectType`: for each
field register `String(id)`, the key, the lower-cased key, the name and the
lower-cased name (`if (field.key)` / `if (field.name)` are JS truthiness
checks, so empty strings are skipped). -/
def buildFieldMap (fields : List PipedriveField) : List (String × String) :=
  fields.foldl
    (fun m f =>
      let id := natToDecimal f.id
      let m := mapSet m id id
      let m :=
        match strTruthy f.key with
        | some k => mapSet (mapSet m k id) (strLower k) id
        | none => m
      match strTruthy f.name with
      | some nm => mapSet (mapSet m nm id) (strLower nm) id
      | none => m)
    []

/-- `PipedriveClient.getFieldMapForObjectType`, with the upstream metadata
listing supplied as the capability `fieldsFor` (the memoizing
`fieldMapCache` only avoids repeated fetches and does not change the
result). -/
def getFieldMapForObjectType (fieldsFor : String → List PipedriveField)
    (objectType : String) : List (String × String) :=
  let normalizedType := normalizeFilterObjectType objectType
  match getFieldEndpointForObjectType normalizedType with
  | none => []
  | some _ => buildFieldMap (fieldsFor normalizedType)

/-- The `Unknown field_id ...` error message of
`normalizeFilterConditionLeaf`. -/
def unknownFieldMessage (rawFieldId objectType : String) : String :=
  "Unknown field_id \"" ++ rawFieldId ++ "\" for object \"" ++ objectType ++
    "\". Use the numeric field ID or a valid field key/name."

/-- `PipedriveClient.normalizeFilterConditionLeaf`: default and normalize the
object type, resolve a non-numeric string `field_id` through the field map
(exact, then lower-cased), fail with the descriptive error when no entry
matches, and force `extra_value` to be present (`?? null`). -/
def normalizeFilterConditionLeaf (fieldsFor : String → List PipedriveField)
    (condition : Leaf) (defaultObjectType : String) : Except String Leaf :=
  let objectType := normalizeFilterObjectType
    (if condition.object = "" then defaultObjectType else condition.object)
  match condition.field_id with
  | .num n =>
    .ok { condition with
          object := objectType, field_id := FieldIdV.num n,
          extra_value := condition.extra_value }
  | .str s =>
    if reDigits s then
      .ok { condition with
            object := objectType, field_id := FieldIdV.str s,
            extra_value := condition.extra_value }
    else
      let fieldMap := getFieldMapForObjectType fieldsFor objectType
      match jsOrOpt (mapGet fieldMap s) (mapGet fieldMap (strLower s)) with
      | some mapped =>
        .ok { condition with
              object := objectType, field_id := FieldIdV.str mapped,
              extra_value := condition.extra_value }
      | none => .error (unknownFieldMessage s objectType)

/-- `PipedriveClient.normalizeFilterRootGroupStructure`: lower-case the root
glue (defaulting to `and`), treat an all-leaf `conditions` array as flat
shorthand wrapped into `[AND-group, OR-group]`, otherwise keep the first
AND-group and the first OR-group among the children (lower-casing group
glues), substituting empty groups when absent. -/
def normalizeFilterRootGroupStructure (input : RootConditions) : CondVal :=
  let rootGlue := match input.glue with
    | some g => strLower g
    | none => "and"
  let rawConditions := match input.conditions with
    | some cs => cs
    | none => []
  if rawConditions.all isLeafB then
    .group rootGlue [.group "and" rawConditions, .group "or" []]
  else
    let groups := (rawConditions.filter isGroupB).map
      (fun g => match g with
        | .group glue cs => CondVal.group (strLower glue) cs
        | x => x)
    let andGroup := match groups.find? (fun g => match g with
        | .group glue _ => glue = "and"
        | _ => false) with
      | some g => g
      | none => .group "and" []
    let orGroup := match groups.find? (fun g => match g with
        | .group glue _ => glue = "or"
        | _ => false) with
      | some g => g
      | none => .group "or" []
    .group rootGlue [andGroup, orGroup]

mutual

/-- `PipedriveClient.normalizeFilterConditionsRecursive`: normalize a leaf
through `normalizeFilterConditionLeaf`, recursively normalize a group's
children (dropping any child that is neither leaf nor group) while
lower-casing its glue, and replace any other value by an empty AND group.
The `Except` monad models the `async` failure propagation: the first
rejected field resolution aborts the whole normalization. -/
def normalizeFilterConditionsRecursive (fieldsFor : String → List PipedriveField) :
    CondVal → String → Except String CondVal
  | .leaf l, defaultObjectType =>
    match normalizeFilterConditionLeaf fieldsFor l defaultObjectType with
    | .ok l2 => .ok (.leaf l2)
    | .error e => .error e
  | .group glue cs, defaultObjectType =>
    match normalizeChildren fieldsFor cs defaultObjectType with
    | .ok cs2 => .ok (.group (strLower glue) cs2)
    | .error e => .error e
  | .other, _ => .ok (.group "and" [])

/-- The `for (const child of node.conditions)` loop of
`normalizeFilterConditionsRecursive`: children failing both type guards are
skipped, the rest are normalized in order, failing fast. -/
def normalizeChildren (fieldsFor : String → List PipedriveField) :
    List CondVal → String → Except String (List CondVal)
  | [], _ => .ok []
  | .other :: rest, defaultObjectType =>
    normalizeChildren fieldsFor rest defaultObjectType
  | c :: rest, defaultObjectType =>
    match normalizeFilterConditionsRecursive fieldsFor c defaultObjectType with
    | .error e => .error e
    | .ok c2 =>
      match normalizeChildren fieldsFor rest defaultObjectType with
      | .error e => .error e
      | .ok cs2 => .ok (c2 :: cs2)

end

/-- `PipedriveClient.normalizeFilterConditions`: normalize the object type,
shape the root into the two-branch structure, recursively normalize it, and
fall back to an empty canonical skeleton if the result were not a group. -/
def normalizeFilterConditions (fieldsFor : String → List PipedriveField)
    (conditions : RootConditions) (type : String) : Except String CondVal :=
  let normalizedType := normalizeFilterObjectType type
  let normalizedRoot := normalizeFilterRootGroupStructure conditions
  match normalizeFilterConditionsRecursive fieldsFor normalizedRoot normalizedType with
  | .error e => .error e
  | .ok normalized =>
    if isGroupB normalized then .ok normalized
    else .ok (.group "and" [.group "and" [], .group "or" []])

mutual

/-- All leaves reachable in a condition tree. -/
def leavesOf : CondVal → List Leaf
  | .leaf l => [l]
  | .group _ cs => leavesOfList cs
  | .other => []

/-- All leaves reachable in a list of condition trees. -/
def leavesOfList : List CondVal → List Leaf
  | [] => []
  | c :: rest => leavesOf c ++ leavesOfList rest

end

/-- A `field_id` is numeric when it is a number or a digits-only string (the
spec's invariant for normalized leaves). -/
def numericFieldId : FieldIdV → Prop
  | .num _ => True
  | .str s => reDigits s = true

/-- The root glue computation of `normalizeFilterRootGroupStructure`:
`typeof glue === 'string' ? glue.toLowerCase() : 'and'`. -/
def rootGlueOf : Option String → String
  | some s => strLower s
  | none => "and"

/-! ### Entities and the enrichment pipeline (`sales-queue.ts`).
Reference-valued fields that the client normalizes through `getReferenceId`
carry `0` for "absent" (JS falsiness of `0` drives every `if (x_id)` check),
and optional fields are `Option`s.  Strings use `""` for the falsy empty
value. -/

/-- `a || b` on JS strings: the first operand unless it is falsy (empty). -/
def jsOrStr (a b : String) : String :=
  if a = "" then b else a

/-- One entry of a person's `email` array. -/
structure EmailEntry where
  value : String
  primary : Bool
deriving DecidableEq

/-- The `Person` interface (a missing `email` array is the empty list). -/
structure Person where
  id : Nat
  name : String
  email : List EmailEntry
  phone : List EmailEntry
  org_id : Nat
deriving DecidableEq

/-- The `Organization` interface. -/
structure Organization where
  id : Nat
  name : String
  address : Option String
  cc_email : Option String
deriving DecidableEq

/-- The `Stage` interface. -/
structure Stage where
  id : Nat
  name : String
  pipeline_id : Nat
  order_nr : Nat
deriving DecidableEq

/-- The normalized `Activity` interface (after `normalizeActivity`):
reference ids are plain numbers with `0` for absent. -/
structure Activity where
  id : Nat
  subject : String
  type : String
  due_date : String
  due_time : String
  person_id : Nat
  person_name : String
  org_id : Nat
  org_name : String
  deal_id : Nat
  deal_title : String
  done : Bool
deriving DecidableEq

/-- The normalized `Deal` interface (after `normalizeDeal`): optional
metadata fields are `Option`s (`undefined` when `none`). -/
structure Deal where
  id : Nat
  title : String
  value : Nat
  currency : String
  stage_id : Nat
  person_id : Nat
  person_name : String
  org_id : Nat
  org_name : String
  status : String
  add_time : String
  update_time : String
  owner_id : Option Nat
  next_activity_id : Option Nat
  undone_activities_count : Option Nat
  last_incoming_mail_time : Option String
  last_outgoing_mail_time : Option String
deriving DecidableEq

/-- A JS value that is either `undefined`, `null`, or a proper value — the
three states optional output fields of `DealItem` can take (JSON omits
`undefined` keys but keeps `null` ones, so they are observably different). -/
inductive JsOpt (α : Type) where
  | undef
  | null
  | val (a : α)
deriving DecidableEq

/-- The nested `deal` sub-object of an `ActivityItem`. -/
structure DealRef where
  deal_id : Nat
  title : String
  stage_id : Nat
  stage_name : String
  url : String
deriving DecidableEq

/-- The nested `person` sub-object of an `ActivityItem` (optional email). -/
structure PersonRef where
  id : Nat
  name : String
  email : Option String
deriving DecidableEq

/-- The nested `org` sub-object of an `ActivityItem` / `DealItem`. -/
structure OrgRef where
  id : Nat
  name : String
deriving DecidableEq

/-- The nested `person` sub-object of a `DealItem` (no email). -/
structure PersonRefD where
  id : Nat
  name : String
deriving DecidableEq

/-- The `ActivityItem` output record: `days_overdue?: number` is `Option`
(absent when `none`), nested sub-objects are `null` when `none`. -/
structure ActivityItem where
  activity_id : Nat
  activity_subject : String
  activity_type : String
  due_date : String
  days_overdue : Option Nat
  deal : Option DealRef
  person : Option PersonRef
  org : Option OrgRef
deriving DecidableEq

/-- The `DealItem` output record. -/
structure DealItem where
  deal_id : Nat
  title : String
  stage_id : Nat
  stage_name : String
  owner_id : JsOpt Nat
  undone_activities_count : JsOpt Nat
  next_activity_id : JsOpt Nat
  last_outgoing_mail_time : JsOpt String
  last_incoming_mail_time : JsOpt String
  url : String
  person : Option PersonRefD
  org : Option OrgRef
deriving DecidableEq

/-- Days since the civil era base for a `(year, month, day)` triple
(the standard days-from-civil algorithm, valid from year 1 on); models the
calendar day that `startOfDay(parseISO(...))` denotes. -/
def daysFromCivil (y m d : Nat) : Nat :=
  let y2 := if m ≤ 2 then y - 1 else y
  let era := y2 / 400
  let yoe := y2 % 400
  let doy := (153 * (if 2 < m then m - 3 else m + 9) + 2) / 5 + d - 1
  let doe := yoe * 365 + yoe / 4 - yoe / 100 + doy
  era * 146097 + doe

/-- Splitting a character list on a separator character. -/
def splitOnChar (sep : Char) : List Char → List (List Char)
  | [] => [[]]
  | c :: rest =>
    let r := splitOnChar sep rest
    if c = sep then [] :: r
    else
      match r with
      | h :: t => (c :: h) :: t
      | [] => [[c]]

/-- Reading a nonempty all-digit character list as a number. -/
def digitsToNat? (cs : List Char) : Option Nat :=
  if !cs.isEmpty && cs.all Char.isDigit then
    some (cs.foldl (fun acc c => acc * 10 + (c.toNat - 48)) 0)
  else none

/-- Parsing a `yyyy-MM-dd` date string into its calendar-day number;
`none` models `parseISO` returning an invalid date (on which `isBefore` is
always false). -/
def parseDateDay (s : String) : Option Nat :=
  match splitOnChar '-' s.data with
  | [ys, ms, ds] =>
    match digitsToNat? ys, digitsToNat? ms, digitsToNat? ds with
    | some y, some m, some d => some (daysFromCivil y m d)
    | _, _, _ => none
  | _ => none

/-- `SalesQueueService.getDealUrl`. -/
def getDealUrl (companyDomain : String) (dealId : Nat) : String :=
  "https://" ++ companyDomain ++ "/deal/" ++ natToDecimal dealId

/-- `SalesQueueService.enrichActivity`.  `nowDay` is the calendar day of the
`startOfDay(now)` reference; maps model the JS `Map` arguments. -/
def enrichActivity (companyDomain : String) (activity : Activity)
    (stagesMap : List (Nat × String)) (dealsMap : List (Nat × Deal))
    (personsMap : List (Nat × Person)) (orgsMap : List (Nat × Organization))
    (nowDay : Nat) : ActivityItem :=
  let daysOverdue : Option Nat :=
    match parseDateDay activity.due_date with
    | some dueDay => if dueDay < nowDay then some (nowDay - dueDay) else none
    | none => none
  let deal : Option DealRef :=
    if activity.deal_id ≠ 0 then
      let dealData := mapGet dealsMap activity.deal_id
      let stageId := match dealData with
        | some dd => dd.stage_id
        | none => 0
      some { deal_id := activity.deal_id,
             title := jsOrStr activity.deal_title
               (match dealData with
                | some dd => dd.title
                | none => ""),
             stage_id := stageId,
             stage_name := if stageId ≠ 0 then
                 jsOrStr (match mapGet stagesMap stageId with
                   | some nm => nm
                   | none => "")
                   ("Stage " ++ natToDecimal stageId)
               else "",
             url := getDealUrl companyDomain activity.deal_id }
    else none
  let person : Option PersonRef :=
    if activity.person_id ≠ 0 then
      let personData := mapGet personsMap activity.person_id
      some { id := activity.person_id,
             name := jsOrStr activity.person_name "Unknown",
             email := jsOrOpt
               (match personData with
                | some p =>
                  match p.email.find? (fun e => e.primary) with
                  | some e => some e.value
                  | none => none
                | none => none)
               (match personData with
                | some p =>
                  match p.email.head? with
                  | some e => some e.value
                  | none => none
                | none => none) }
    else none
  let org : Option OrgRef :=
    if activity.org_id ≠ 0 then
      let orgData := mapGet orgsMap activity.org_id
      some { id := activity.org_id,
             name := jsOrStr activity.org_name
               (jsOrStr (match orgData with
                 | some o => o.name
                 | none => "") "Unknown") }
    else none
  { activity_id := activity.id,
    activity_subject := activity.subject,
    activity_type := activity.type,
    due_date := activity.due_date,
    days_overdue := daysOverdue,
    deal := deal,
    person := person,
    org := org }

/-- `SalesQueueService.enrichDeal`. -/
def enrichDeal (companyDomain : String) (deal : Deal)
    (stagesMap : List (Nat × String)) (personsMap : List (Nat × Person))
    (orgsMap : List (Nat × Organization)) : DealItem :=
  let person : Option PersonRefD :=
    if deal.person_id ≠ 0 then
      let personData := mapGet personsMap deal.person_id
      some { id := deal.person_id,
             name := jsOrStr deal.person_name
               (jsOrStr (match personData with
                 | some p => p.name
                 | none => "") "Unknown") }
    else none
  let org : Option OrgRef :=
    if deal.org_id ≠ 0 then
      let orgData := mapGet orgsMap deal.org_id
      some { id := deal.org_id,
             name := jsOrStr deal.org_name
               (jsOrStr (match orgData with
                 | some o => o.name
                 | none => "") "Unknown") }
    else none
  { deal_id := deal.id,
    title := deal.title,
    stage_id := deal.stage_id,
    stage_name := jsOrStr
      (match mapGet stagesMap deal.stage_id with
       | some nm => nm
       | none => "")
      ("Stage " ++ natToDecimal deal.stage_id),
    owner_id := match deal.owner_id with
      | some n => JsOpt.val n
      | none => JsOpt.undef,
    undone_activities_count := match deal.undone_activities_count with
      | some n => JsOpt.val n
      | none => JsOpt.undef,
    next_activity_id := match deal.next_activity_id with
      | some n => if n = 0 then JsOpt.null else JsOpt.val n
      | none => JsOpt.null,
    last_outgoing_mail_time := match deal.last_outgoing_mail_time with
      | some s => if s = "" then JsOpt.null else JsOpt.val s
      | none => JsOpt.null,
    last_incoming_mail_time := match deal.last_incoming_mail_time with
      | some s => if s = "" then JsOpt.null else JsOpt.val s
      | none => JsOpt.null,
    url := getDealUrl companyDomain deal.id,
    person := person,
    org := org }

/-- The display-name fallback chain as the spec words it: the source
record's own denormalized name first, then the bulk-fetched entity's name,
then the literal default — used to compare the enrichment code against the
spec sentence (empty strings count as missing). -/
def specNameFallback (source : String) (bulkName : Option String)
    (dflt : String) : String :=
  if source = "" then
    match bulkName with
    | some s => if s = "" then dflt else s
    | none => dflt
  else source

/-! ### Reference-value normalization (`pipedrive-client.ts`,
`getReferenceId` / `getReferenceName` / `normalizeDeal` /
`normalizeActivity`). -/

/-- A raw reference-valued field as the upstream API may deliver it: a bare
number, a string, an object (with optional `value` and `name` members, each
again a raw value), `null`, or absent. -/
inductive RefRaw where
  | num (n : Nat)
  | str (s : String)
  | obj (value : Option RefRaw) (name : Option RefRaw)
  | nullv
  | undef

/-- `PipedriveClient.getReferenceId`: a bare number is the id, an object
with a numeric `value` member yields that number, everything else `0`. -/
def getReferenceId (v : RefRaw) : Nat :=
  match v with
  | .num n => n
  | .obj ov _ =>
    match ov with
    | some (.num n) => n
    | _ => 0
  | _ => 0

/-- `PipedriveClient.getReferenceName`: a bare string is the name, an object
with a string `name` member yields that string, everything else `""`. -/
def getReferenceName (v : RefRaw) : String :=
  match v with
  | .str s => s
  | .obj _ nv =>
    match nv with
    | some (.str s) => s
    | _ => ""
  | _ => ""

/-- A deal as the upstream API delivers it, before `normalizeDeal`:
reference fields are raw values, `person_name` / `org_name` may be absent
(empty). -/
structure RawDeal where
  id : Nat
  title : String
  value : Nat
  currency : String
  stage_id : Nat
  person_id : RefRaw
  person_name : String
  org_id : RefRaw
  org_name : String
  status : String
  add_time : String
  update_time : String
  owner_id : RefRaw
  next_activity_id : RefRaw
  undone_activities_count : Option Nat
  last_incoming_mail_time : Option String
  last_outgoing_mail_time : Option String

/-- `PipedriveClient.normalizeDeal`: spread the raw deal and overwrite the
reference fields with their normalized forms (`getReferenceId(...) ||
undefined` turns a `0` id into an absent optional). -/
def normalizeDeal (raw : RawDeal) : Deal :=
  { id := raw.id,
    title := raw.title,
    value := raw.value,
    currency := raw.currency,
    stage_id := raw.stage_id,
    person_id := getReferenceId raw.person_id,
    person_name := jsOrStr raw.person_name (getReferenceName raw.person_id),
    org_id := getReferenceId raw.org_id,
    org_name := jsOrStr raw.org_name (getReferenceName raw.org_id),
    status := raw.status,
    add_time := raw.add_time,
    update_time := raw.update_time,
    owner_id := if getReferenceId raw.owner_id = 0 then none
      else some (getReferenceId raw.owner_id),
    next_activity_id := if getReferenceId raw.next_activity_id = 0 then none
      else some (getReferenceId raw.next_activity_id),
    undone_activities_count := raw.undone_activities_count,
    last_incoming_mail_time := raw.last_incoming_mail_time,
    last_outgoing_mail_time := raw.last_outgoing_mail_time }

/-- An activity as the upstream API delivers it, before
`normalizeActivity`. -/
structure RawActivity where
  id : Nat
  subject : String
  type : String
  due_date : String
  due_time : String
  person_id : RefRaw
  person_name : String
  org_id : RefRaw
  org_name : String
  deal_id : RefRaw
  deal_title : String
  done : Bool

/-- `PipedriveClient.normalizeActivity`. -/
def normalizeActivity (raw : RawActivity) : Activity :=
  { id := raw.id,
    subject := raw.subject,
    type := raw.type,
    due_date := raw.due_date,
    due_time := raw.due_time,
    person_id := getReferenceId raw.person_id,
    person_name := jsOrStr raw.person_name (getReferenceName raw.person_id),
    org_id := getReferenceId raw.org_id,
    org_name := jsOrStr raw.org_name (getReferenceName raw.org_id),
    deal_id := getReferenceId raw.deal_id,
    deal_title := jsOrStr raw.deal_title (getReferenceName raw.deal_id),
    done := raw.done }

/-! ### Single-entity fetches with the `try`/`catch` null conversion
(`getPerson` / `getOrganization` / `getStage`). -/

/-- `PipedriveClient.getPerson`: the capability `get` stands for
`getWithV1Fallback` followed by the `response.data.data` extraction; any
thrown error becomes `null`. -/
def getPerson (get : String → Except String (Option Person))
    (personId : Nat) : Option Person :=
  match get ("/persons/" ++ natToDecimal personId) with
  | .ok p => p
  | .error _ => none

/-- `PipedriveClient.getOrganization`. -/
def getOrganization (get : String → Except String (Option Organization))
    (orgId : Nat) : Option Organization :=
  match get ("/organizations/" ++ natToDecimal orgId) with
  | .ok p => p
  | .error _ => none

/-- `PipedriveClient.getStage`. -/
def getStage (get : String → Except String (Option Stage))
    (stageId : Nat) : Option Stage :=
  match get ("/stages/" ++ natToDecimal stageId) with
  | .ok p => p
  | .error _ => none

/-- Re-submitting a condition tree to `normalizeFilterConditions`: a group
becomes the `{glue, conditions}` record, anything else carries neither a
string `glue` nor an array `conditions`. -/
def rootInputOf : CondVal → RootConditions
  | .group g cs => ⟨some g, some cs⟩
  | _ => ⟨none, none⟩

end Pipedrive

set_option maxRecDepth 40000

open Pipedrive

/-- Invariant lemma for the pagination loop: on normal termination the result
is the accumulator followed by all fetched pages, and the call trace is
well-formed for the starting cursor and accumulator length. -/
theorem fetchAllLoop_spec {α : Type} (fetchPage : Option String → Nat → Page α)
    (limit : Nat) :
    ∀ (fuel : Nat) (cursor : Option String) (acc res : List α)
      (calls : List (Option String × Nat)),
      fetchAllLoop fetchPage limit fuel cursor acc = some (res, calls) →
      res = acc ++ calls.flatMap (fun p => (fetchPage p.1 p.2).data) ∧
      traceOK fetchPage limit cursor acc.length calls := by
  intro fuel
  induction fuel with
  | zero => intro cursor acc res calls h; simp [fetchAllLoop] at h
  | succ n ih =>
    intro cursor acc res calls h
    rw [fetchAllLoop] at h
    by_cases hlt : acc.length < limit
    · rw [if_pos hlt] at h
      rcases hc : (fetchPage cursor (min 100 (limit - acc.length))).next_cursor with _ | c2
      · simp only [hc, Option.some.injEq, Prod.mk.injEq] at h
        obtain ⟨h1, h2⟩ := h
        subst h1; subst h2
        refine ⟨by simp, ?_⟩
        exact ⟨hlt, rfl, rfl, by simp [traceOK, hc]⟩
      · simp only [hc] at h
        by_cases hfull :
            limit ≤ (acc ++ (fetchPage cursor (min 100 (limit - acc.length))).data).length
        · rw [if_pos hfull] at h
          simp only [Option.some.injEq, Prod.mk.injEq] at h
          obtain ⟨h1, h2⟩ := h
          subst h1; subst h2
          refine ⟨by simp, ?_⟩
          refine ⟨hlt, rfl, rfl, ?_⟩
          simp only [traceOK, hc]
          rw [if_pos (by simpa using hfull)]
          trivial
        · rw [if_neg hfull] at h
          rw [Option.map_eq_some'] at h
          obtain ⟨r, hrec, hg⟩ := h
          simp only [Prod.mk.injEq] at hg
          obtain ⟨h1, h2⟩ := hg
          obtain ⟨hres, htr⟩ := ih _ _ _ _ hrec
          subst h2
          constructor
          · rw [← h1, hres]; simp
          · refine ⟨hlt, rfl, rfl, ?_⟩
            simp only [traceOK, hc]
            rw [if_neg (by simpa using hfull)]
            simpa using htr
    · rw [if_neg hlt] at h
      simp only [Option.some.injEq, Prod.mk.injEq] at h
      obtain ⟨h1, h2⟩ := h
      subst h1; subst h2
      exact ⟨by simp, by simpa [traceOK] using Nat.le_of_not_lt hlt⟩


/-- C1: the paged fetch loop calls the capability first with no cursor and
then with the previously returned cursor, requests
`min 100 (limit - accumulated)` items per call, stops as soon as the
accumulated count reaches the limit or no next cursor is returned, and
returns at most `limit` items (a final over-full page is truncated).  For
`limit = 250` against an unlimited source of pages of size 100 it returns
exactly 250 items in exactly 3 upstream calls; for `limit = 50` against a
source that exhausts after 30 items it returns 30 items in one call and
stops when no cursor is returned. -/
theorem fetchAllByFilter_paging_correct :
    (∀ (α : Type) (fetchPage : Option String → Nat → Pipedrive.Page α)
        (limit fuel : Nat) (res : List α) (calls : List (Option String × Nat)),
        Pipedrive.fetchAllByFilter fetchPage limit fuel = some (res, calls) →
        res = (calls.flatMap fun p => (fetchPage p.1 p.2).data).take limit ∧
        res.length ≤ limit ∧
        Pipedrive.traceOK fetchPage limit none 0 calls) ∧
    (Pipedrive.fetchAllByFilter Pipedrive.unlimitedSource 250 10).map
        (fun r => (r.1.length, r.2)) =
      some (250, [(none, 100), (some "c", 100), (some "c", 50)]) ∧
    (Pipedrive.fetchAllByFilter Pipedrive.exhaustedSource 50 10).map
        (fun r => (r.1.length, r.2)) =
      some (30, [(none, 50)]) := by
  refine ⟨?_, by rfl, by rfl⟩
  intro α fetchPage limit fuel res calls h
  rw [Pipedrive.fetchAllByFilter, Option.map_eq_some'] at h
  obtain ⟨r, hloop, hg⟩ := h
  obtain ⟨hres, htr⟩ := fetchAllLoop_spec fetchPage limit fuel none [] r.1 r.2 hloop
  simp only [Prod.mk.injEq] at hg
  obtain ⟨h1, h2⟩ := hg
  subst h1; subst h2
  simp only [List.nil_append] at hres
  refine ⟨by rw [hres], List.length_take_le _ _, ?_⟩
  simpa using htr

/-- Witness for C1: the quantified part applied to the unlimited-pages
scenario at `limit := 250`. -/
theorem fetchAllByFilter_paging_correct_witness :
    List.replicate 250 (0 : Nat) =
      (([(none, 100), (some "c", 100), (some "c", 50)] :
          List (Option String × Nat)).flatMap
        (fun p => (Pipedrive.unlimitedSource p.1 p.2).data)).take 250 ∧
    (List.replicate 250 (0 : Nat)).length ≤ 250 ∧
    Pipedrive.traceOK Pipedrive.unlimitedSource 250 none 0
      [(none, 100), (some "c", 100), (some "c", 50)] :=
  fetchAllByFilter_paging_correct.1 Nat Pipedrive.unlimitedSource 250 10
    (List.replicate 250 0) [(none, 100), (some "c", 100), (some "c", 50)] (by rfl)

/-- `Map.set` only produces entries that were already in the map or the newly
set `(k, v)` pair. -/
theorem mapSet_mem {κ α : Type} [DecidableEq κ] {m : List (κ × α)} {k0 k : κ} {v0 v : α}
    (h : (k, v) ∈ mapSet m k0 v0) : (k, v) ∈ m ∨ (k = k0 ∧ v = v0) := by
  unfold mapSet at h
  by_cases ha : m.any (fun p => p.1 = k0)
  · rw [if_pos ha, List.mem_map] at h
    obtain ⟨p, hp, he⟩ := h
    by_cases hk : p.1 = k0
    · rw [if_pos hk] at he
      injection he with h1 h2
      right
      exact ⟨h1.symm, h2.symm⟩
    · rw [if_neg hk] at he
      left
      rwa [he] at hp
  · rw [if_neg ha, List.mem_append] at h
    rcases h with h | h
    · left; exact h
    · right
      simp only [List.mem_singleton, Prod.mk.injEq] at h
      exact h

/-- `Map.set` keeps every existing key. -/
theorem mapSet_hasKey_mono {κ α : Type} [DecidableEq κ] {m : List (κ × α)} {k0 k : κ} (v0 : α)
    (h : ∃ v, (k, v) ∈ m) : ∃ v, (k, v) ∈ mapSet m k0 v0 := by
  obtain ⟨v, hv⟩ := h
  unfold mapSet
  by_cases ha : m.any (fun p => p.1 = k0)
  · rw [if_pos ha]
    by_cases hk : k = k0
    · subst hk
      exact ⟨v0, List.mem_map.mpr ⟨(k, v), hv, by simp⟩⟩
    · exact ⟨v, List.mem_map.mpr ⟨(k, v), hv, by simp [hk]⟩⟩
  · rw [if_neg ha]
    exact ⟨v, List.mem_append_left _ hv⟩

/-- After `Map.set` the key that was set is present. -/
theorem mapSet_hasKey_self {κ α : Type} [DecidableEq κ] (m : List (κ × α)) (k0 : κ) (v0 : α) :
    ∃ v, (k0, v) ∈ mapSet m k0 v0 := by
  unfold mapSet
  by_cases ha : m.any (fun p => p.1 = k0)
  · rw [if_pos ha]
    rw [List.any_eq_true] at ha
    obtain ⟨p, hp, hpk⟩ := ha
    simp only [decide_eq_true_eq] at hpk
    exact ⟨v0, List.mem_map.mpr ⟨p, hp, by simp [hpk]⟩⟩
  · rw [if_neg ha]
    exact ⟨v0, List.mem_append_right _ (by simp)⟩

/-- Folding a batch of entities into the map only produces entries from the
starting map or entities of the batch keyed by their own id. -/
theorem foldl_mapSet_mem {α : Type} (getId : α → Nat) :
    ∀ (es : List α) (m : List (Nat × α)) (k : Nat) (v : α),
      (k, v) ∈ es.foldl (fun acc e => mapSet acc (getId e) e) m →
      (k, v) ∈ m ∨ (v ∈ es ∧ getId v = k) := by
  intro es
  induction es with
  | nil => intro m k v h; simpa using h
  | cons e t ih =>
    intro m k v h
    simp only [List.foldl_cons] at h
    rcases ih _ _ _ h with h2 | h2
    · rcases mapSet_mem h2 with h3 | ⟨h3, h4⟩
      · left; exact h3
      · right
        refine ⟨?_, ?_⟩
        · rw [h4]; exact List.mem_cons_self e t
        · rw [h4]; exact h3.symm
    · right
      exact ⟨List.mem_cons_of_mem _ h2.1, h2.2⟩

/-- Folding a batch of entities into the map keeps existing keys and makes
every batch entity's id present. -/
theorem foldl_mapSet_hasKey {α : Type} (getId : α → Nat) :
    ∀ (es : List α) (m : List (Nat × α)) (k : Nat),
      ((∃ v, (k, v) ∈ m) ∨ ∃ e ∈ es, getId e = k) →
      ∃ v, (k, v) ∈ es.foldl (fun acc e => mapSet acc (getId e) e) m := by
  intro es
  induction es with
  | nil =>
    intro m k h
    rcases h with h | h
    · simpa using h
    · simp at h
  | cons e t ih =>
    intro m k h
    simp only [List.foldl_cons]
    rcases h with h | ⟨e2, he2, hk⟩
    · exact ih _ _ (Or.inl (mapSet_hasKey_mono e h))
    · rcases List.mem_cons.mp he2 with h3 | h3
      · subst h3
        subst hk
        exact ih _ _ (Or.inl (mapSet_hasKey_self m (getId e2) e2))
      · exact ih _ _ (Or.inr ⟨e2, h3, hk⟩)

/-- The bulk loop issues exactly one upstream call per batch, in order. -/
theorem bulkLoop_calls {α : Type} (getId : α → Nat)
    (fetchBatch : List Nat → Except String (Option (List α))) :
    ∀ (batches : List (List Nat)) (m : List (Nat × α)),
      (bulkLoop getId fetchBatch batches m).2 = batches := by
  intro batches
  induction batches with
  | nil => intro m; rfl
  | cons b t ih =>
    intro m
    rcases hf : fetchBatch b with e | o
    · simp [bulkLoop, hf, ih]
    · rcases o with _ | es <;> simp [bulkLoop, hf, ih]

/-- Every entry of the merged bulk map is an entity returned by one of the
successfully fetched batches, keyed by its own id. -/
theorem bulkLoop_mem {α : Type} (getId : α → Nat)
    (fetchBatch : List Nat → Except String (Option (List α))) :
    ∀ (batches : List (List Nat)) (m : List (Nat × α)) (k : Nat) (v : α),
      (k, v) ∈ (bulkLoop getId fetchBatch batches m).1 →
      (k, v) ∈ m ∨
        ∃ b ∈ batches, ∃ es, fetchBatch b = .ok (some es) ∧ v ∈ es ∧ getId v = k := by
  intro batches
  induction batches with
  | nil => intro m k v h; left; simpa [bulkLoop] using h
  | cons b t ih =>
    intro m k v h
    rcases hf : fetchBatch b with e | o
    · simp only [bulkLoop, hf] at h
      rcases ih _ _ _ h with h2 | ⟨b2, hb2, es, hes, hv, hk⟩
      · left; exact h2
      · right; exact ⟨b2, List.mem_cons_of_mem _ hb2, es, hes, hv, hk⟩
    · rcases o with _ | es
      · simp only [bulkLoop, hf] at h
        rcases ih _ _ _ h with h2 | ⟨b2, hb2, es2, hes, hv, hk⟩
        · left; exact h2
        · right; exact ⟨b2, List.mem_cons_of_mem _ hb2, es2, hes, hv, hk⟩
      · simp only [bulkLoop, hf] at h
        rcases ih _ _ _ h with h2 | ⟨b2, hb2, es2, hes, hv, hk⟩
        · rcases foldl_mapSet_mem getId es m k v h2 with h3 | ⟨h3, h4⟩
          · left; exact h3
          · right; exact ⟨b, List.mem_cons_self b t, es, hf, h3, h4⟩
        · right; exact ⟨b2, List.mem_cons_of_mem _ hb2, es2, hes, hv, hk⟩

/-- The bulk loop keeps existing keys and makes the id of every entity of
every successfully fetched batch present in the merged map. -/
theorem bulkLoop_hasKey {α : Type} (getId : α → Nat)
    (fetchBatch : List Nat → Except String (Option (List α))) :
    ∀ (batches : List (List Nat)) (m : List (Nat × α)) (k : Nat),
      ((∃ v, (k, v) ∈ m) ∨
        ∃ b ∈ batches, ∃ es, fetchBatch b = .ok (some es) ∧ ∃ e ∈ es, getId e = k) →
      ∃ v, (k, v) ∈ (bulkLoop getId fetchBatch batches m).1 := by
  intro batches
  induction batches with
  | nil =>
    intro m k h
    rcases h with h | h
    · simpa [bulkLoop] using h
    · simp at h
  | cons b t ih =>
    intro m k h
    rcases h with h | ⟨b2, hb2, es2, hes2, e2, he2, hk⟩
    · rcases hf : fetchBatch b with e | o
      · simpa [bulkLoop, hf] using ih _ _ (Or.inl h)
      · rcases o with _ | es
        · simpa [bulkLoop, hf] using ih _ _ (Or.inl h)
        · simpa [bulkLoop, hf] using
            ih _ _ (Or.inl (foldl_mapSet_hasKey getId es m k (Or.inl h)))
    · rcases List.mem_cons.mp hb2 with h3 | h3
      · subst h3
        simp only [bulkLoop, hes2]
        exact ih _ _ (Or.inl (foldl_mapSet_hasKey getId es2 m k (Or.inr ⟨e2, he2, hk⟩)))
      · rcases hf : fetchBatch b with e | o
        · simpa [bulkLoop, hf] using ih _ _ (Or.inr ⟨b2, h3, es2, hes2, e2, he2, hk⟩)
        · rcases o with _ | es
          · simpa [bulkLoop, hf] using ih _ _ (Or.inr ⟨b2, h3, es2, hes2, e2, he2, hk⟩)
          · simpa [bulkLoop, hf] using ih _ _ (Or.inr ⟨b2, h3, es2, hes2, e2, he2, hk⟩)

/-- Every chunk produced by the batching loop has at most 100 elements. -/
theorem chunksGo_length_le {α : Type} :
    ∀ (n : Nat) (l : List α), ∀ b ∈ chunksGo n l, b.length ≤ 100 := by
  intro n
  induction n with
  | zero => intro l b hb; simp [chunksGo] at hb
  | succ n ih =>
    intro l b hb
    rw [chunksGo] at hb
    by_cases he : l.isEmpty
    · rw [if_pos he] at hb; simp at hb
    · rw [if_neg he] at hb
      rcases List.mem_cons.mp hb with h | h
      · subst h
        exact List.length_take_le 100 l
      · exact ih (l.drop 100) b h

/-- Every chunk of `chunks100` has at most 100 elements. -/
theorem chunks100_length_le {α : Type} (l : List α) :
    ∀ b ∈ chunks100 l, b.length ≤ 100 :=
  chunksGo_length_le l.length l

/-- C2: the bulk fetchers partition the identifiers into consecutive batches
of at most 100 (250 identifiers produce batches of sizes 100/100/50), issue
one upstream fetch per batch, merge returned entities into a map keyed by
each entity's own id, tolerate a failing batch (its entities are simply
absent while the other batches' entities are returned), and short-circuit an
empty identifier list to an empty map with no upstream call. -/
theorem getEntitiesBulk_correct :
    (∀ (α : Type) (getId : α → Nat)
        (fetchBatch : List Nat → Except String (Option (List α))) (ids : List Nat),
        ((getEntitiesBulk getId fetchBatch ids).2 =
            if ids = [] then [] else chunks100 ids) ∧
        (∀ b ∈ (getEntitiesBulk getId fetchBatch ids).2, b.length ≤ 100) ∧
        (ids = [] → getEntitiesBulk getId fetchBatch ids = ([], [])) ∧
        (∀ k v, (k, v) ∈ (getEntitiesBulk getId fetchBatch ids).1 →
          getId v = k ∧
            ∃ b ∈ chunks100 ids, ∃ es, fetchBatch b = .ok (some es) ∧ v ∈ es) ∧
        (ids ≠ [] → ∀ b ∈ chunks100 ids, ∀ es, fetchBatch b = .ok (some es) →
          ∀ e ∈ es, ∃ v, (getId e, v) ∈ (getEntitiesBulk getId fetchBatch ids).1)) ∧
    (chunks100 (List.range 250)).map List.length = [100, 100, 50] ∧
    (getEntitiesBulk Ent.id failSecondBatch (List.range 250)).1.map Prod.fst =
      List.range 100 ++ List.range' 200 50 ∧
    (getEntitiesBulk Ent.id failSecondBatch (List.range 250)).2.map List.length =
      [100, 100, 50] := by
  refine ⟨?_, by rfl, by rfl, by rfl⟩
  intro α getId fetchBatch ids
  by_cases hids : ids = []
  · subst hids
    refine ⟨by simp [getEntitiesBulk], ?_, fun _ => by simp [getEntitiesBulk], ?_, ?_⟩
    · intro b hb
      simp [getEntitiesBulk] at hb
    · intro k v hv
      simp [getEntitiesBulk] at hv
    · intro hne
      exact absurd rfl hne
  · refine ⟨?_, ?_, fun he => absurd he hids, ?_, ?_⟩
    · simp [getEntitiesBulk, hids, bulkLoop_calls]
    · intro b hb
      simp only [getEntitiesBulk, if_neg hids, bulkLoop_calls] at hb
      exact chunks100_length_le ids b hb
    · intro k v hv
      simp only [getEntitiesBulk, if_neg hids] at hv
      rcases bulkLoop_mem getId fetchBatch (chunks100 ids) [] k v hv with h | ⟨b, hb, es, hes, hv2, hk⟩
      · simp at h
      · exact ⟨hk, b, hb, es, hes, hv2⟩
    · intro _ b hb es hes e he
      simp only [getEntitiesBulk, if_neg hids]
      exact bulkLoop_hasKey getId fetchBatch (chunks100 ids) [] (getId e)
        (Or.inr ⟨b, hb, es, hes, e, he, rfl⟩)

/-- Witness for C2: the quantified part applied to the 250-identifier
failing-second-batch scenario, plus its hypotheses-free conclusions. -/
theorem getEntitiesBulk_correct_witness :
    ((getEntitiesBulk Ent.id failSecondBatch (List.range 250)).2 =
        if List.range 250 = [] then [] else chunks100 (List.range 250)) ∧
    (∀ b ∈ (getEntitiesBulk Ent.id failSecondBatch (List.range 250)).2,
        b.length ≤ 100) ∧
    (List.range 250 = [] →
        getEntitiesBulk Ent.id failSecondBatch (List.range 250) = ([], [])) ∧
    (∀ k v, (k, v) ∈ (getEntitiesBulk Ent.id failSecondBatch (List.range 250)).1 →
        Ent.id v = k ∧
          ∃ b ∈ chunks100 (List.range 250), ∃ es,
            failSecondBatch b = .ok (some es) ∧ v ∈ es) ∧
    (List.range 250 ≠ [] → ∀ b ∈ chunks100 (List.range 250), ∀ es,
        failSecondBatch b = .ok (some es) → ∀ e ∈ es, ∃ v,
          (Ent.id e, v) ∈ (getEntitiesBulk Ent.id failSecondBatch (List.range 250)).1) :=
  getEntitiesBulk_correct.1 Ent Ent.id failSecondBatch (List.range 250)

/-- `Char.ofNat` of a scalar value below the surrogate range keeps its code
point. -/
theorem toNat_charOfNat_of_valid {n : Nat} (h : n < 55296) :
    (Char.ofNat n).toNat = n := by
  unfold Char.ofNat
  rw [dif_pos (Or.inl h)]
  rfl

/-- Lower-casing an ASCII upper-case letter adds 32 to its code point. -/
theorem toLower_toNat_upper {c : Char} (h65 : 65 ≤ c.toNat) (h90 : c.toNat ≤ 90) :
    c.toLower.toNat = c.toNat + 32 := by
  unfold Char.toLower
  rw [if_pos ⟨h65, h90⟩]
  exact toNat_charOfNat_of_valid (by omega)

/-- Lower-casing any character that is not an ASCII upper-case letter is the
identity. -/
theorem toLower_eq_self {c : Char} (h : ¬(65 ≤ c.toNat ∧ c.toNat ≤ 90)) :
    c.toLower = c := by
  unfold Char.toLower
  rw [if_neg h]

/-- `Char.toLower` is idempotent. -/
theorem toLower_toLower (c : Char) : c.toLower.toLower = c.toLower := by
  by_cases h : 65 ≤ c.toNat ∧ c.toNat ≤ 90
  · have h2 := toLower_toNat_upper h.1 h.2
    apply toLower_eq_self
    rw [h2]
    omega
  · rw [toLower_eq_self h, toLower_eq_self h]

/-- Lower-casing does not change whether a character is trimmable
whitespace. -/
theorem wsChar_toLower (c : Char) : wsChar c.toLower = wsChar c := by
  rw [Bool.eq_iff_iff]
  simp only [wsChar, Bool.or_eq_true, decide_eq_true_eq]
  by_cases h : 65 ≤ c.toNat ∧ c.toNat ≤ 90
  · rw [toLower_toNat_upper h.1 h.2]
    omega
  · rw [toLower_eq_self h]

/-- `strLower` is idempotent. -/
theorem strLower_strLower (s : String) : strLower (strLower s) = strLower s := by
  unfold strLower
  apply congrArg
  simp only [List.map_map]
  exact List.map_congr_left (fun c _ => toLower_toLower c)

/-- `dropWhile` commutes with `map` when the predicate is invariant under the
mapped function. -/
theorem dropWhile_map_of_pres {α : Type} (p : α → Bool) (f : α → α)
    (hf : ∀ c, p (f c) = p c) :
    ∀ l : List α, (l.map f).dropWhile p = (l.dropWhile p).map f := by
  intro l
  induction l with
  | nil => rfl
  | cons a t ih =>
    simp only [List.map_cons, List.dropWhile_cons, hf a]
    by_cases h : p a
    · rw [if_pos h, if_pos h]
      exact ih
    · rw [if_neg h, if_neg h, List.map_cons]

/-- `rdropWhile` commutes with `map` when the predicate is invariant under
the mapped function. -/
theorem rdropWhile_map_of_pres {α : Type} (p : α → Bool) (f : α → α)
    (hf : ∀ c, p (f c) = p c) (l : List α) :
    (l.map f).rdropWhile p = (l.rdropWhile p).map f := by
  simp only [List.rdropWhile]
  rw [← List.map_reverse, dropWhile_map_of_pres p f hf, List.map_reverse]

/-- `trimChars` commutes with lower-casing. -/
theorem trimChars_map_toLower (l : List Char) :
    trimChars (l.map Char.toLower) = (trimChars l).map Char.toLower := by
  unfold trimChars
  rw [dropWhile_map_of_pres wsChar Char.toLower wsChar_toLower,
    rdropWhile_map_of_pres wsChar Char.toLower wsChar_toLower]

/-- `trimChars` is idempotent. -/
theorem trimChars_trimChars (l : List Char) :
    trimChars (trimChars l) = trimChars l := by
  unfold trimChars
  rcases ht : (l.dropWhile wsChar).rdropWhile wsChar with _ | ⟨a, t⟩
  · simp
  · have hd : (a :: t).dropWhile wsChar = a :: t := by
      rw [List.dropWhile_eq_self_iff]
      intro hl
      have hpre : (a :: t) <+: l.dropWhile wsChar := by
        rw [← ht]
        exact List.rdropWhile_prefix wsChar (l.dropWhile wsChar)
      have hlen : 0 < (l.dropWhile wsChar).length :=
        Nat.lt_of_lt_of_le (by simp) hpre.length_le
      have hhead := List.dropWhile_get_zero_not wsChar l hlen
      have hget := List.IsPrefix.getElem hpre (by simp : 0 < (a :: t).length)
      simp only [List.getElem_cons_zero] at hget
      rw [hget]
      simpa [List.get_eq_getElem] using hhead
    rw [hd, ← ht, List.rdropWhile_idempotent, ht]

/-- The `trim().toLowerCase()` composition is idempotent. -/
theorem strLowerTrim_idem (s : String) :
    strLower (strTrim (strLower (strTrim s))) = strLower (strTrim s) := by
  unfold strLower strTrim
  apply congrArg
  simp only
  rw [trimChars_map_toLower, trimChars_trimChars, List.map_map]
  exact List.map_congr_left (fun c _ => toLower_toLower c)

/-- The synonym switch either returns one of the seven canonical tokens or
echoes its input back. -/
theorem objectTypeSwitch_cases (n : String) :
    objectTypeSwitch n = "deal" ∨ objectTypeSwitch n = "activity" ∨
    objectTypeSwitch n = "person" ∨ objectTypeSwitch n = "organization" ∨
    objectTypeSwitch n = "product" ∨ objectTypeSwitch n = "project" ∨
    objectTypeSwitch n = "lead" ∨ objectTypeSwitch n = n := by
  unfold objectTypeSwitch
  split_ifs <;> simp

/-- `normalizeFilterObjectType` is idempotent. -/
theorem normalizeFilterObjectType_idem (s : String) :
    normalizeFilterObjectType (normalizeFilterObjectType s) =
      normalizeFilterObjectType s := by
  rcases objectTypeSwitch_cases (strLower (strTrim s)) with h | h | h | h | h | h | h | h <;>
    unfold normalizeFilterObjectType <;> rw [h]
  · rfl
  · rfl
  · rfl
  · rfl
  · rfl
  · rfl
  · rfl
  · rw [strLowerTrim_idem, h]

/-- Digit characters are decimal digits. -/
theorem digitCh_isDigit (n : Nat) : (digitCh n).isDigit = true := by
  unfold digitCh
  split_ifs <;> decide

/-- Every character of the decimal expansion is a decimal digit. -/
theorem natDigitsGo_isDigit :
    ∀ (fuel n : Nat), ∀ c ∈ natDigitsGo fuel n, c.isDigit = true := by
  intro fuel
  induction fuel with
  | zero => intro n c hc; simp [natDigitsGo] at hc
  | succ m ih =>
    intro n c hc
    rw [natDigitsGo] at hc
    by_cases h : n < 10
    · rw [if_pos h] at hc
      simp only [List.mem_singleton] at hc
      rw [hc]
      exact digitCh_isDigit n
    · rw [if_neg h, List.mem_append] at hc
      rcases hc with hc | hc
      · exact ih _ _ hc
      · simp only [List.mem_singleton] at hc
        rw [hc]
        exact digitCh_isDigit (n % 10)

/-- The decimal expansion of a number is nonempty (for positive fuel). -/
theorem natDigitsGo_ne_nil (fuel n : Nat) : natDigitsGo (fuel + 1) n ≠ [] := by
  rw [natDigitsGo]
  by_cases h : n < 10
  · rw [if_pos h]; simp
  · rw [if_neg h]; simp

/-- `String(n)` passes the `/^\d+$/` test. -/
theorem reDigits_natToDecimal (n : Nat) : reDigits (natToDecimal n) = true := by
  unfold reDigits natToDecimal
  rw [Bool.and_eq_true]
  constructor
  · rcases h : natDigitsGo (n + 1) n with _ | ⟨a, t⟩
    · exact absurd h (natDigitsGo_ne_nil n n)
    · simp [h]
  · rw [List.all_eq_true]
    intro c hc
    exact natDigitsGo_isDigit (n + 1) n c hc

/-- A successful `Map.get` comes from an entry of the map with that key. -/
theorem mapGet_mem {κ α : Type} [DecidableEq κ] {m : List (κ × α)} {k : κ} {v : α}
    (h : mapGet m k = some v) : (k, v) ∈ m := by
  unfold mapGet at h
  rw [Option.map_eq_some'] at h
  obtain ⟨p, hp, hv⟩ := h
  have hmem := List.mem_of_find?_eq_some hp
  have hkey := List.find?_some hp
  simp only [decide_eq_true_eq] at hkey
  rw [← hv, ← hkey]
  exact hmem

/-- `Map.set` preserves a predicate on all stored values when the new value
satisfies it. -/
theorem mapSet_values {κ α : Type} [DecidableEq κ] {m : List (κ × α)} {k0 : κ}
    {v0 : α} (P : α → Prop) (hm : ∀ k v, (k, v) ∈ m → P v) (h0 : P v0) :
    ∀ k v, (k, v) ∈ mapSet m k0 v0 → P v := by
  intro k v hv
  rcases mapSet_mem hv with h | ⟨_, h⟩
  · exact hm k v h
  · rw [h]; exact h0

/-- Every value stored in the field map is the decimal rendering of some
field id. -/
theorem buildFieldMap_values (fields : List PipedriveField) :
    ∀ k v, (k, v) ∈ buildFieldMap fields → ∃ n, v = natToDecimal n := by
  unfold buildFieldMap
  suffices h : ∀ (m : List (String × String)),
      (∀ k v, (k, v) ∈ m → ∃ n, v = natToDecimal n) →
      ∀ k v, (k, v) ∈ fields.foldl
        (fun m f =>
          let id := natToDecimal f.id
          let m := mapSet m id id
          let m :=
            match strTruthy f.key with
            | some k => mapSet (mapSet m k id) (strLower k) id
            | none => m
          match strTruthy f.name with
          | some nm => mapSet (mapSet m nm id) (strLower nm) id
          | none => m)
        m → ∃ n, v = natToDecimal n by
    exact h [] (by simp)
  intro m hm
  induction fields generalizing m with
  | nil => simpa using hm
  | cons f t ih =>
    intro k v hv
    rw [List.foldl_cons] at hv
    refine ih _ ?_ k v hv
    intro k2 v2 hv2
    have base : ∀ k3 v3,
        (k3, v3) ∈ mapSet m (natToDecimal f.id) (natToDecimal f.id) →
        ∃ n, v3 = natToDecimal n :=
      mapSet_values (fun v3 => ∃ n, v3 = natToDecimal n) hm ⟨f.id, rfl⟩
    rcases hk : strTruthy f.key with _ | sk <;>
      rcases hn : strTruthy f.name with _ | sn <;>
      simp only [hk, hn] at hv2
    · exact base k2 v2 hv2
    · exact mapSet_values _ (mapSet_values _ base ⟨f.id, rfl⟩) ⟨f.id, rfl⟩ k2 v2 hv2
    · exact mapSet_values _ (mapSet_values _ base ⟨f.id, rfl⟩) ⟨f.id, rfl⟩ k2 v2 hv2
    · exact mapSet_values _
        (mapSet_values _ (mapSet_values _ (mapSet_values _ base ⟨f.id, rfl⟩) ⟨f.id, rfl⟩)
          ⟨f.id, rfl⟩) ⟨f.id, rfl⟩ k2 v2 hv2

/-- A successful `a || b` over optional strings returns one of the two
operands' values. -/
theorem jsOrOpt_some {a b : Option String} {v : String}
    (h : jsOrOpt a b = some v) : a = some v ∨ b = some v := by
  unfold jsOrOpt strTruthy at h
  rcases a with _ | s
  · rcases b with _ | t
    · simp at h
    · simp only at h
      by_cases ht : t = ""
      · rw [if_pos ht] at h; simp at h
      · rw [if_neg ht] at h
        right; exact h
  · simp only at h
    by_cases hs : s = ""
    · rw [if_pos hs] at h
      rcases b with _ | t
      · simp at h
      · simp only at h
        by_cases ht : t = ""
        · rw [if_pos ht] at h; simp at h
        · rw [if_neg ht] at h
          right; exact h
    · rw [if_neg hs] at h
      left; exact h

/-- Every value of the per-object-type field map is a decimal field id. -/
theorem getFieldMap_values (fieldsFor : String → List PipedriveField)
    (objectType : String) :
    ∀ k v, (k, v) ∈ getFieldMapForObjectType fieldsFor objectType →
      ∃ n, v = natToDecimal n := by
  intro k v hv
  unfold getFieldMapForObjectType at hv
  rcases he : getFieldEndpointForObjectType (normalizeFilterObjectType objectType)
    with _ | e <;> simp only [he] at hv
  · simp at hv
  · exact buildFieldMap_values _ k v hv

/-- A successfully normalized leaf carries a numeric `field_id`. -/
theorem normalizeFilterConditionLeaf_numeric (fieldsFor : String → List PipedriveField)
    (condition : Leaf) (d : String) (l2 : Leaf)
    (h : normalizeFilterConditionLeaf fieldsFor condition d = .ok l2) :
    numericFieldId l2.field_id := by
  unfold normalizeFilterConditionLeaf at h
  rcases hf : condition.field_id with n | s <;> rw [hf] at h <;> dsimp only at h
  · simp only [Except.ok.injEq] at h
    rw [← h]
    trivial
  · by_cases hd : reDigits s
    · rw [if_pos hd] at h
      simp only [Except.ok.injEq] at h
      rw [← h]
      exact hd
    · rw [if_neg hd] at h
      rcases hm : jsOrOpt
          (mapGet (getFieldMapForObjectType fieldsFor
            (normalizeFilterObjectType
              (if condition.object = "" then d else condition.object))) s)
          (mapGet (getFieldMapForObjectType fieldsFor
            (normalizeFilterObjectType
              (if condition.object = "" then d else condition.object))) (strLower s))
        with _ | mapped
      · rw [hm] at h
        simp at h
      · rw [hm] at h
        simp only [Except.ok.injEq] at h
        rw [← h]
        rcases jsOrOpt_some hm with h2 | h2
        · obtain ⟨n, hn⟩ := getFieldMap_values fieldsFor _ _ _ (mapGet_mem h2)
          show reDigits mapped = true
          rw [hn]
          exact reDigits_natToDecimal n
        · obtain ⟨n, hn⟩ := getFieldMap_values fieldsFor _ _ _ (mapGet_mem h2)
          show reDigits mapped = true
          rw [hn]
          exact reDigits_natToDecimal n

mutual

/-- Every leaf of a successfully recursively-normalized condition tree
carries a numeric `field_id`. -/
theorem normRec_leaves_numeric (fieldsFor : String → List PipedriveField) :
    ∀ (c : CondVal) (d : String) (r : CondVal),
      normalizeFilterConditionsRecursive fieldsFor c d = .ok r →
      ∀ l ∈ leavesOf r, numericFieldId l.field_id
  | .leaf lf, d, r, h => by
    simp only [normalizeFilterConditionsRecursive] at h
    rcases hl : normalizeFilterConditionLeaf fieldsFor lf d with e | l2
    · rw [hl] at h; simp at h
    · rw [hl] at h
      simp only [Except.ok.injEq] at h
      intro l hl2
      rw [← h] at hl2
      simp only [leavesOf, List.mem_singleton] at hl2
      rw [hl2]
      exact normalizeFilterConditionLeaf_numeric fieldsFor lf d l2 hl
  | .group glue cs, d, r, h => by
    simp only [normalizeFilterConditionsRecursive] at h
    rcases hc : normalizeChildren fieldsFor cs d with e | cs2
    · rw [hc] at h; simp at h
    · rw [hc] at h
      simp only [Except.ok.injEq] at h
      intro l hl
      rw [← h] at hl
      simp only [leavesOf] at hl
      exact normChildren_leaves_numeric fieldsFor cs d cs2 hc l hl
  | .other, _, r, h => by
    simp only [normalizeFilterConditionsRecursive, Except.ok.injEq] at h
    intro l hl
    rw [← h] at hl
    simp [leavesOf, leavesOfList] at hl

/-- Every leaf of a successfully normalized children list carries a numeric
`field_id`. -/
theorem normChildren_leaves_numeric (fieldsFor : String → List PipedriveField) :
    ∀ (cs : List CondVal) (d : String) (rs : List CondVal),
      normalizeChildren fieldsFor cs d = .ok rs →
      ∀ l ∈ leavesOfList rs, numericFieldId l.field_id
  | [], _, rs, h => by
    simp only [normalizeChildren, Except.ok.injEq] at h
    intro l hl
    rw [← h] at hl
    simp [leavesOfList] at hl
  | .other :: rest, d, rs, h => by
    simp only [normalizeChildren] at h
    exact normChildren_leaves_numeric fieldsFor rest d rs h
  | .leaf lf :: rest, d, rs, h => by
    simp only [normalizeChildren] at h
    rcases h1 : normalizeFilterConditionsRecursive fieldsFor (.leaf lf) d with e | c2
    · rw [h1] at h; simp at h
    · rw [h1] at h
      rcases h2 : normalizeChildren fieldsFor rest d with e | cs3
      · rw [h2] at h; simp at h
      · rw [h2] at h
        simp only [Except.ok.injEq] at h
        intro l hl
        rw [← h] at hl
        simp only [leavesOfList, List.mem_append] at hl
        rcases hl with hl | hl
        · exact normRec_leaves_numeric fieldsFor (.leaf lf) d c2 h1 l hl
        · exact normChildren_leaves_numeric fieldsFor rest d cs3 h2 l hl
  | .group glue gcs :: rest, d, rs, h => by
    simp only [normalizeChildren] at h
    rcases h1 : normalizeFilterConditionsRecursive fieldsFor (.group glue gcs) d with e | c2
    · rw [h1] at h; simp at h
    · rw [h1] at h
      rcases h2 : normalizeChildren fieldsFor rest d with e | cs3
      · rw [h2] at h; simp at h
      · rw [h2] at h
        simp only [Except.ok.injEq] at h
        intro l hl
        rw [← h] at hl
        simp only [leavesOfList, List.mem_append] at hl
        rcases hl with hl | hl
        · exact normRec_leaves_numeric fieldsFor (.group glue gcs) d c2 h1 l hl
        · exact normChildren_leaves_numeric fieldsFor rest d cs3 h2 l hl

end

/-- The AND/OR group selection of `normalizeFilterRootGroupStructure` always
produces a group with the requested glue. -/
theorem findGroupOrDefault (gl : String) (groups : List CondVal) :
    ∃ cs, (match groups.find? (fun g => match g with
        | CondVal.group glue _ => glue = gl
        | _ => false) with
      | some g => g
      | none => CondVal.group gl []) = CondVal.group gl cs := by
  rcases hf : groups.find? (fun g => match g with
      | CondVal.group glue _ => glue = gl
      | _ => false) with _ | g
  · refine ⟨[], ?_⟩
    rw [hf]
  · have hp := List.find?_some hf
    rcases g with l | ⟨glue, cs⟩ | _
    · simp at hp
    · simp only [decide_eq_true_eq] at hp
      refine ⟨cs, ?_⟩
      rw [hf, hp]
    · simp at hp

/-- The root restructuring always yields a root group holding exactly an
AND group followed by an OR group. -/
theorem normalizeFilterRootGroupStructure_shape (input : RootConditions) :
    ∃ g as os, normalizeFilterRootGroupStructure input =
      CondVal.group g [CondVal.group "and" as, CondVal.group "or" os] := by
  unfold normalizeFilterRootGroupStructure
  by_cases hall : (match input.conditions with
      | some cs => cs
      | none => []).all isLeafB = true
  · dsimp only
    rw [if_pos hall]
    exact ⟨_, _, [], rfl⟩
  · dsimp only
    rw [if_neg hall]
    obtain ⟨as, ha⟩ := findGroupOrDefault "and"
      (((match input.conditions with
          | some cs => cs
          | none => []).filter isGroupB).map
        (fun g => match g with
          | CondVal.group glue cs => CondVal.group (strLower glue) cs
          | x => x))
    obtain ⟨os, ho⟩ := findGroupOrDefault "or"
      (((match input.conditions with
          | some cs => cs
          | none => []).filter isGroupB).map
        (fun g => match g with
          | CondVal.group glue cs => CondVal.group (strLower glue) cs
          | x => x))
    rw [ha, ho]
    exact ⟨_, as, os, rfl⟩

/-- Normalizing the children list `[AND-group, OR-group]` produces exactly
the two recursively normalized groups. -/
theorem normalizeChildren_two_groups (fieldsFor : String → List PipedriveField)
    (g1 g2 : String) (cs1 cs2 : List CondVal) (d : String) (rs : List CondVal)
    (h : normalizeChildren fieldsFor
      [CondVal.group g1 cs1, CondVal.group g2 cs2] d = .ok rs) :
    ∃ ns1 ns2, rs = [CondVal.group (strLower g1) ns1, CondVal.group (strLower g2) ns2] ∧
      normalizeChildren fieldsFor cs1 d = .ok ns1 ∧
      normalizeChildren fieldsFor cs2 d = .ok ns2 := by
  simp only [normalizeChildren, normalizeFilterConditionsRecursive] at h
  rcases h1 : normalizeChildren fieldsFor cs1 d with e | ns1 <;> rw [h1] at h
  · simp at h
  · rcases h2 : normalizeChildren fieldsFor cs2 d with e | ns2 <;> rw [h2] at h
    · simp at h
    · simp only [Except.ok.injEq] at h
      exact ⟨ns1, ns2, h.symm, rfl, rfl⟩

/-- Inversion for recursive normalization of a group node. -/
theorem normRec_group_ok (fieldsFor : String → List PipedriveField)
    (glue : String) (cs : List CondVal) (d : String) (r : CondVal)
    (h : normalizeFilterConditionsRecursive fieldsFor (CondVal.group glue cs) d = .ok r) :
    ∃ cs2, normalizeChildren fieldsFor cs d = .ok cs2 ∧
      r = CondVal.group (strLower glue) cs2 := by
  simp only [normalizeFilterConditionsRecursive] at h
  rcases hc : normalizeChildren fieldsFor cs d with e | cs2 <;> rw [hc] at h
  · simp at h
  · simp only [Except.ok.injEq] at h
    exact ⟨cs2, rfl, h.symm⟩

/-- C3: whenever `normalizeFilterConditions` succeeds, the result is a group
whose `conditions` are exactly an AND group followed by an OR group (each
possibly empty), and every reachable leaf has a numeric `field_id` (a number
or a digits-only string). -/
theorem normalizeFilterConditions_canonical
    (fieldsFor : String → List PipedriveField) (input : RootConditions)
    (type : String) (r : CondVal)
    (h : normalizeFilterConditions fieldsFor input type = .ok r) :
    (∃ g as os, r = CondVal.group g
      [CondVal.group "and" as, CondVal.group "or" os]) ∧
    ∀ l ∈ leavesOf r, numericFieldId l.field_id := by
  unfold normalizeFilterConditions at h
  obtain ⟨g, as, os, hroot⟩ := normalizeFilterRootGroupStructure_shape input
  rw [hroot] at h
  dsimp only at h
  rcases hr : normalizeFilterConditionsRecursive fieldsFor
      (CondVal.group g [CondVal.group "and" as, CondVal.group "or" os])
      (normalizeFilterObjectType type) with e | r2
  · rw [hr] at h
    simp at h
  · rw [hr] at h
    obtain ⟨cs2, hc, hr2⟩ := normRec_group_ok fieldsFor g _ _ r2 hr
    obtain ⟨ns1, ns2, hcs2, hn1, hn2⟩ :=
      normalizeChildren_two_groups fieldsFor "and" "or" as os _ cs2 hc
    have hand : strLower "and" = "and" := by decide
    have hor : strLower "or" = "or" := by decide
    rw [hand, hor] at hcs2
    have hgrp : isGroupB r2 = true := by
      rw [hr2]
      rfl
    dsimp only at h
    rw [if_pos hgrp] at h
    simp only [Except.ok.injEq] at h
    constructor
    · exact ⟨strLower g, ns1, ns2, by rw [← h, hr2, hcs2]⟩
    · intro l hl
      rw [← h] at hl
      exact normRec_leaves_numeric fieldsFor _ _ r2 hr l hl

/-- Witness for C3: a flat one-leaf input against an empty metadata
environment. -/
theorem normalizeFilterConditions_canonical_witness :
    (∃ g as os,
      CondVal.group "and"
        [CondVal.group "and" [CondVal.leaf ⟨"deal", FieldIdV.num 5, "=", none, none⟩],
         CondVal.group "or" []] =
      CondVal.group g [CondVal.group "and" as, CondVal.group "or" os]) ∧
    ∀ l ∈ leavesOf (CondVal.group "and"
        [CondVal.group "and" [CondVal.leaf ⟨"deal", FieldIdV.num 5, "=", none, none⟩],
         CondVal.group "or" []]),
      numericFieldId l.field_id :=
  normalizeFilterConditions_canonical (fun _ => [])
    ⟨none, some [CondVal.leaf ⟨"", FieldIdV.num 5, "=", none, none⟩]⟩ "deal"
    (CondVal.group "and"
      [CondVal.group "and" [CondVal.leaf ⟨"deal", FieldIdV.num 5, "=", none, none⟩],
       CondVal.group "or" []])
    (by rfl)

/-- The only error `normalizeFilterConditionLeaf` can produce is the
"unknown field" message naming the unresolved identifier and the object
type. -/
theorem normalizeFilterConditionLeaf_error (fieldsFor : String → List PipedriveField)
    (condition : Leaf) (d : String) (e : String)
    (h : normalizeFilterConditionLeaf fieldsFor condition d = .error e) :
    ∃ s, e = unknownFieldMessage s
      (normalizeFilterObjectType
        (if condition.object = "" then d else condition.object)) := by
  unfold normalizeFilterConditionLeaf at h
  rcases hf : condition.field_id with n | s <;> rw [hf] at h <;> dsimp only at h
  · simp at h
  · by_cases hd : reDigits s
    · rw [if_pos hd] at h
      simp at h
    · rw [if_neg hd] at h
      rcases hm : jsOrOpt
          (mapGet (getFieldMapForObjectType fieldsFor
            (normalizeFilterObjectType
              (if condition.object = "" then d else condition.object))) s)
          (mapGet (getFieldMapForObjectType fieldsFor
            (normalizeFilterObjectType
              (if condition.object = "" then d else condition.object))) (strLower s))
        with _ | mapped <;> rw [hm] at h
      · simp only [Except.error.injEq] at h
        exact ⟨s, h.symm⟩
      · simp at h

mutual

/-- Every error of the recursive normalizer is an "unknown field" error. -/
theorem normRec_error_shape (fieldsFor : String → List PipedriveField) :
    ∀ (c : CondVal) (d : String) (e : String),
      normalizeFilterConditionsRecursive fieldsFor c d = .error e →
      ∃ s t, e = unknownFieldMessage s t
  | .leaf lf, d, e, h => by
    simp only [normalizeFilterConditionsRecursive] at h
    rcases hl : normalizeFilterConditionLeaf fieldsFor lf d with e2 | l2 <;> rw [hl] at h
    · simp only [Except.error.injEq] at h
      obtain ⟨s, hs⟩ := normalizeFilterConditionLeaf_error fieldsFor lf d e2 hl
      exact ⟨s, _, h ▸ hs⟩
    · simp at h
  | .group glue cs, d, e, h => by
    simp only [normalizeFilterConditionsRecursive] at h
    rcases hc : normalizeChildren fieldsFor cs d with e2 | cs2 <;> rw [hc] at h
    · simp only [Except.error.injEq] at h
      obtain ⟨s, t, hs⟩ := normChildren_error_shape fieldsFor cs d e2 hc
      exact ⟨s, t, h ▸ hs⟩
    · simp at h
  | .other, _, e, h => by
    simp [normalizeFilterConditionsRecursive] at h

/-- Every error of the children loop is an "unknown field" error. -/
theorem normChildren_error_shape (fieldsFor : String → List PipedriveField) :
    ∀ (cs : List CondVal) (d : String) (e : String),
      normalizeChildren fieldsFor cs d = .error e →
      ∃ s t, e = unknownFieldMessage s t
  | [], _, e, h => by
    simp [normalizeChildren] at h
  | .other :: rest, d, e, h => by
    simp only [normalizeChildren] at h
    exact normChildren_error_shape fieldsFor rest d e h
  | .leaf lf :: rest, d, e, h => by
    simp only [normalizeChildren] at h
    rcases h1 : normalizeFilterConditionsRecursive fieldsFor (.leaf lf) d with e2 | c2 <;>
      rw [h1] at h
    · simp only [Except.error.injEq] at h
      obtain ⟨s, t, hs⟩ := normRec_error_shape fieldsFor (.leaf lf) d e2 h1
      exact ⟨s, t, h ▸ hs⟩
    · rcases h2 : normalizeChildren fieldsFor rest d with e2 | cs3 <;> rw [h2] at h
      · simp only [Except.error.injEq] at h
        obtain ⟨s, t, hs⟩ := normChildren_error_shape fieldsFor rest d e2 h2
        exact ⟨s, t, h ▸ hs⟩
      · simp at h
  | .group glue gcs :: rest, d, e, h => by
    simp only [normalizeChildren] at h
    rcases h1 : normalizeFilterConditionsRecursive fieldsFor (.group glue gcs) d with e2 | c2 <;>
      rw [h1] at h
    · simp only [Except.error.injEq] at h
      obtain ⟨s, t, hs⟩ := normRec_error_shape fieldsFor (.group glue gcs) d e2 h1
      exact ⟨s, t, h ▸ hs⟩
    · rcases h2 : normalizeChildren fieldsFor rest d with e2 | cs3 <;> rw [h2] at h
      · simp only [Except.error.injEq] at h
        obtain ⟨s, t, hs⟩ := normChildren_error_shape fieldsFor rest d e2 h2
        exact ⟨s, t, h ▸ hs⟩
      · simp at h

end

/-- The first failing child aborts the whole children loop with that error,
regardless of later children. -/
theorem normalizeChildren_append_error (fieldsFor : String → List PipedriveField)
    (d : String) (e : String) :
    ∀ (cs1 : List CondVal) (c : CondVal) (cs2 : List CondVal) (rs1 : List CondVal),
      normalizeChildren fieldsFor cs1 d = .ok rs1 →
      (isLeafB c || isGroupB c) = true →
      normalizeFilterConditionsRecursive fieldsFor c d = .error e →
      normalizeChildren fieldsFor (cs1 ++ c :: cs2) d = .error e := by
  intro cs1
  induction cs1 with
  | nil =>
    intro c cs2 rs1 h1 hg he
    rcases c with lf | ⟨glue, gcs⟩ | _
    · simp only [List.nil_append, normalizeChildren]
      rw [he]
    · simp only [List.nil_append, normalizeChildren]
      rw [he]
    · simp [isLeafB, isGroupB] at hg
  | cons c0 rest ih =>
    intro c cs2 rs1 h1 hg he
    rcases c0 with lf | ⟨glue, gcs⟩ | _
    · simp only [normalizeChildren] at h1
      rcases hr0 : normalizeFilterConditionsRecursive fieldsFor (.leaf lf) d with e2 | c2 <;>
        rw [hr0] at h1
      · simp at h1
      · rcases hrest : normalizeChildren fieldsFor rest d with e2 | rs2 <;> rw [hrest] at h1
        · simp at h1
        · simp only [List.cons_append, normalizeChildren]
          rw [hr0]
          have h3 : normalizeChildren fieldsFor (rest.append (c :: cs2)) d =
              Except.error e := ih c cs2 rs2 hrest hg he
          rw [h3]
    · simp only [normalizeChildren] at h1
      rcases hr0 : normalizeFilterConditionsRecursive fieldsFor (.group glue gcs) d
        with e2 | c2 <;> rw [hr0] at h1
      · simp at h1
      · rcases hrest : normalizeChildren fieldsFor rest d with e2 | rs2 <;> rw [hrest] at h1
        · simp at h1
        · simp only [List.cons_append, normalizeChildren]
          rw [hr0]
          have h3 : normalizeChildren fieldsFor (rest.append (c :: cs2)) d =
              Except.error e := ih c cs2 rs2 hrest hg he
          rw [h3]
    · simp only [normalizeChildren] at h1
      simp only [List.cons_append, normalizeChildren]
      exact ih c cs2 rs1 h1 hg he

/-- C5: a purely numeric `field_id` (number or digits-only string) is
returned unchanged and no metadata lookup happens (the result does not
depend on the metadata environment); a symbolic `field_id` is resolved
through the object type's field map, first by exact match then by
lower-cased match, and when no entry matches the call fails with the
"unknown field" error naming the identifier and the object type; every
error surfaced by `normalizeFilterConditions` is such an "unknown field"
error, and the first failing child aborts the children loop fail-fast, so no
partial normalization is returned. -/
theorem filter_field_resolution :
    (∀ (env env2 : String → List PipedriveField) (cond : Leaf) (d : String),
      numericFieldId cond.field_id →
      normalizeFilterConditionLeaf env cond d = normalizeFilterConditionLeaf env2 cond d ∧
      normalizeFilterConditionLeaf env cond d = .ok { cond with
        object := normalizeFilterObjectType
          (if cond.object = "" then d else cond.object),
        field_id := cond.field_id,
        extra_value := cond.extra_value }) ∧
    (∀ (env : String → List PipedriveField) (cond : Leaf) (d s : String),
      cond.field_id = FieldIdV.str s → reDigits s = false →
      (∀ v, jsOrOpt
          (mapGet (getFieldMapForObjectType env
            (normalizeFilterObjectType
              (if cond.object = "" then d else cond.object))) s)
          (mapGet (getFieldMapForObjectType env
            (normalizeFilterObjectType
              (if cond.object = "" then d else cond.object))) (strLower s)) = some v →
        normalizeFilterConditionLeaf env cond d = .ok { cond with
          object := normalizeFilterObjectType
            (if cond.object = "" then d else cond.object),
          field_id := FieldIdV.str v,
          extra_value := cond.extra_value }) ∧
      (jsOrOpt
          (mapGet (getFieldMapForObjectType env
            (normalizeFilterObjectType
              (if cond.object = "" then d else cond.object))) s)
          (mapGet (getFieldMapForObjectType env
            (normalizeFilterObjectType
              (if cond.object = "" then d else cond.object))) (strLower s)) = none →
        normalizeFilterConditionLeaf env cond d = .error
          (unknownFieldMessage s
            (normalizeFilterObjectType
              (if cond.object = "" then d else cond.object))))) ∧
    (∀ (env : String → List PipedriveField) (input : RootConditions)
        (type e : String),
      normalizeFilterConditions env input type = .error e →
      ∃ s t, e = unknownFieldMessage s t) ∧
    (∀ (env : String → List PipedriveField) (d e : String)
        (cs1 : List CondVal) (c : CondVal) (cs2 rs1 : List CondVal),
      normalizeChildren env cs1 d = .ok rs1 →
      (isLeafB c || isGroupB c) = true →
      normalizeFilterConditionsRecursive env c d = .error e →
      normalizeChildren env (cs1 ++ c :: cs2) d = .error e) := by
  refine ⟨?_, ?_, ?_, ?_⟩
  · intro env env2 cond d hnum
    rcases hf : cond.field_id with n | s
    · constructor
      · unfold normalizeFilterConditionLeaf
        rw [hf]
      · unfold normalizeFilterConditionLeaf
        rw [hf]
    · have hd : reDigits s = true := by
        rw [hf] at hnum
        exact hnum
      constructor
      · unfold normalizeFilterConditionLeaf
        rw [hf]
        dsimp only
        rw [if_pos hd, if_pos hd]
      · unfold normalizeFilterConditionLeaf
        rw [hf]
        dsimp only
        rw [if_pos hd]
  · intro env cond d s hf hd
    constructor
    · intro v hv
      unfold normalizeFilterConditionLeaf
      rw [hf]
      dsimp only
      rw [if_neg (by rw [hd]; simp), hv]
    · intro hv
      unfold normalizeFilterConditionLeaf
      rw [hf]
      dsimp only
      rw [if_neg (by rw [hd]; simp), hv]
  · intro env input type e h
    unfold normalizeFilterConditions at h
    dsimp only at h
    rcases hr : normalizeFilterConditionsRecursive env
        (normalizeFilterRootGroupStructure input)
        (normalizeFilterObjectType type) with e2 | r2 <;> rw [hr] at h
    · simp only [Except.error.injEq] at h
      obtain ⟨s, t, hs⟩ := normRec_error_shape env _ _ e2 hr
      exact ⟨s, t, h ▸ hs⟩
    · dsimp only at h
      by_cases hg : isGroupB r2 = true
      · rw [if_pos hg] at h; simp at h
      · rw [if_neg hg] at h; simp at h
  · intro env d e cs1 c cs2 rs1 h1 hg he
    exact normalizeChildren_append_error env d e cs1 c cs2 rs1 h1 hg he

/-- Witness for C5: concrete instantiations of all four conjuncts against a
one-field metadata environment for deals. -/
theorem filter_field_resolution_witness :
    (normalizeFilterConditionLeaf (fun _ => [])
        ⟨"", FieldIdV.num 7, "=", none, none⟩ "deal" =
      normalizeFilterConditionLeaf (fun _ => [⟨1, some "k", none⟩])
        ⟨"", FieldIdV.num 7, "=", none, none⟩ "deal") ∧
    (normalizeFilterConditionLeaf (fun _ => [⟨123, some "title", some "Title"⟩])
        ⟨"deal", FieldIdV.str "Title", "=", none, none⟩ "deal" =
      .ok ⟨"deal", FieldIdV.str "123", "=", none, none⟩) ∧
    (normalizeFilterConditionLeaf (fun _ => [⟨123, some "title", some "Title"⟩])
        ⟨"deal", FieldIdV.str "nope", "=", none, none⟩ "deal" =
      .error (unknownFieldMessage "nope" "deal")) ∧
    (∃ s t, unknownFieldMessage "nope" "deal" = unknownFieldMessage s t) ∧
    (normalizeChildren (fun _ => [⟨123, some "title", some "Title"⟩])
        ([CondVal.leaf ⟨"deal", FieldIdV.num 1, "=", none, none⟩] ++
          CondVal.leaf ⟨"deal", FieldIdV.str "nope", "=", none, none⟩ ::
            [CondVal.leaf ⟨"deal", FieldIdV.num 2, "=", none, none⟩]) "deal" =
      .error (unknownFieldMessage "nope" "deal")) := by
  refine ⟨?_, ?_, ?_, ?_, ?_⟩
  · exact (filter_field_resolution.1 (fun _ => []) (fun _ => [⟨1, some "k", none⟩])
      ⟨"", FieldIdV.num 7, "=", none, none⟩ "deal" trivial).1
  · exact (filter_field_resolution.2.1 (fun _ => [⟨123, some "title", some "Title"⟩])
      ⟨"deal", FieldIdV.str "Title", "=", none, none⟩ "deal" "Title" rfl (by rfl)).1
      "123" (by rfl)
  · exact (filter_field_resolution.2.1 (fun _ => [⟨123, some "title", some "Title"⟩])
      ⟨"deal", FieldIdV.str "nope", "=", none, none⟩ "deal" "nope" rfl (by rfl)).2
      (by rfl)
  · exact filter_field_resolution.2.2.1 (fun _ => [⟨123, some "title", some "Title"⟩])
      ⟨some "and", some [CondVal.leaf ⟨"deal", FieldIdV.str "nope", "=", none, none⟩]⟩
      "deal" (unknownFieldMessage "nope" "deal") (by rfl)
  · exact filter_field_resolution.2.2.2 (fun _ => [⟨123, some "title", some "Title"⟩])
      "deal" (unknownFieldMessage "nope" "deal")
      [CondVal.leaf ⟨"deal", FieldIdV.num 1, "=", none, none⟩]
      (CondVal.leaf ⟨"deal", FieldIdV.str "nope", "=", none, none⟩)
      [CondVal.leaf ⟨"deal", FieldIdV.num 2, "=", none, none⟩]
      [CondVal.leaf ⟨"deal", FieldIdV.num 1, "=", none, none⟩]
      (by rfl) (by rfl) (by rfl)

/-- Leaf normalization is idempotent as long as the normalized object type
is nonempty. -/
theorem normalizeFilterConditionLeaf_idem (fieldsFor : String → List PipedriveField)
    (lf : Leaf) (d : String) (l2 : Leaf)
    (h : normalizeFilterConditionLeaf fieldsFor lf d = .ok l2)
    (hobj : ¬(l2.object = "")) :
    normalizeFilterConditionLeaf fieldsFor l2 d = .ok l2 := by
  unfold normalizeFilterConditionLeaf at h ⊢
  rcases hf : lf.field_id with n | s <;> rw [hf] at h <;> dsimp only at h
  · simp only [Except.ok.injEq] at h
    rw [← h] at hobj ⊢
    dsimp only at hobj ⊢
    rw [if_neg hobj, normalizeFilterObjectType_idem]
  · by_cases hd : reDigits s
    · rw [if_pos hd] at h
      simp only [Except.ok.injEq] at h
      rw [← h] at hobj ⊢
      dsimp only at hobj ⊢
      rw [if_neg hobj, if_pos hd, normalizeFilterObjectType_idem]
    · rw [if_neg hd] at h
      rcases hm : jsOrOpt
          (mapGet (getFieldMapForObjectType fieldsFor
            (normalizeFilterObjectType
              (if lf.object = "" then d else lf.object))) s)
          (mapGet (getFieldMapForObjectType fieldsFor
            (normalizeFilterObjectType
              (if lf.object = "" then d else lf.object))) (strLower s))
        with _ | mapped <;> rw [hm] at h
      · simp at h
      · simp only [Except.ok.injEq] at h
        have hmd : reDigits mapped = true := by
          rcases jsOrOpt_some hm with h2 | h2 <;>
          · obtain ⟨n, hn⟩ := getFieldMap_values fieldsFor _ _ _ (mapGet_mem h2)
            rw [hn]
            exact reDigits_natToDecimal n
        rw [← h] at hobj ⊢
        dsimp only at hobj ⊢
        rw [if_neg hobj, if_pos hmd, normalizeFilterObjectType_idem]

mutual

/-- Recursive normalization is idempotent on its outputs whose leaves all
carry a nonempty object type. -/
theorem normRec_idem (fieldsFor : String → List PipedriveField) :
    ∀ (c : CondVal) (d : String) (r : CondVal),
      normalizeFilterConditionsRecursive fieldsFor c d = .ok r →
      (∀ l ∈ leavesOf r, ¬(l.object = "")) →
      normalizeFilterConditionsRecursive fieldsFor r d = .ok r
  | .leaf lf, d, r, h, hobj => by
    simp only [normalizeFilterConditionsRecursive] at h
    rcases hl : normalizeFilterConditionLeaf fieldsFor lf d with e | l2 <;> rw [hl] at h
    · simp at h
    · simp only [Except.ok.injEq] at h
      rw [← h]
      simp only [normalizeFilterConditionsRecursive]
      rw [normalizeFilterConditionLeaf_idem fieldsFor lf d l2 hl
        (hobj l2 (by rw [← h]; simp [leavesOf]))]
  | .group glue cs, d, r, h, hobj => by
    obtain ⟨cs2, hc, hr⟩ := normRec_group_ok fieldsFor glue cs d r h
    have hc2 : normalizeChildren fieldsFor cs2 d = .ok cs2 :=
      normChildren_idem fieldsFor cs d cs2 hc
        (fun l hl => hobj l (by rw [hr]; simpa [leavesOf] using hl))
    rw [hr]
    simp only [normalizeFilterConditionsRecursive]
    rw [hc2, strLower_strLower]
  | .other, d, r, h, hobj => by
    simp only [normalizeFilterConditionsRecursive, Except.ok.injEq] at h
    rw [← h]
    simp only [normalizeFilterConditionsRecursive, normalizeChildren]
    have : strLower "and" = "and" := by decide
    rw [this]

/-- The children loop is idempotent on its outputs whose leaves all carry a
nonempty object type. -/
theorem normChildren_idem (fieldsFor : String → List PipedriveField) :
    ∀ (cs : List CondVal) (d : String) (rs : List CondVal),
      normalizeChildren fieldsFor cs d = .ok rs →
      (∀ l ∈ leavesOfList rs, ¬(l.object = "")) →
      normalizeChildren fieldsFor rs d = .ok rs
  | [], _, rs, h, _ => by
    simp only [normalizeChildren, Except.ok.injEq] at h
    rw [← h]
    rfl
  | .other :: rest, d, rs, h, hobj => by
    simp only [normalizeChildren] at h
    exact normChildren_idem fieldsFor rest d rs h hobj
  | .leaf lf :: rest, d, rs, h, hobj => by
    simp only [normalizeChildren] at h
    rcases h1 : normalizeFilterConditionsRecursive fieldsFor (.leaf lf) d with e | c2 <;>
      rw [h1] at h
    · simp at h
    · rcases h2 : normalizeChildren fieldsFor rest d with e | cs3 <;> rw [h2] at h
      · simp at h
      · simp only [Except.ok.injEq] at h
        have hc2 : ∃ l2, c2 = CondVal.leaf l2 := by
          simp only [normalizeFilterConditionsRecursive] at h1
          rcases hl : normalizeFilterConditionLeaf fieldsFor lf d with e | l2 <;>
            rw [hl] at h1
          · simp at h1
          · simp only [Except.ok.injEq] at h1
            exact ⟨l2, h1.symm⟩
        obtain ⟨l2, hl2⟩ := hc2
        have hrec : normalizeFilterConditionsRecursive fieldsFor c2 d = .ok c2 :=
          normRec_idem fieldsFor (.leaf lf) d c2 h1
            (fun l hl => hobj l (by rw [← h]; simp [leavesOfList]; exact Or.inl hl))
        have hrest : normalizeChildren fieldsFor cs3 d = .ok cs3 :=
          normChildren_idem fieldsFor rest d cs3 h2
            (fun l hl => hobj l (by rw [← h]; simp [leavesOfList]; exact Or.inr hl))
        rw [← h, hl2]
        simp only [normalizeChildren]
        rw [← hl2, hrec, hrest]
  | .group glue gcs :: rest, d, rs, h, hobj => by
    simp only [normalizeChildren] at h
    rcases h1 : normalizeFilterConditionsRecursive fieldsFor (.group glue gcs) d with e | c2 <;>
      rw [h1] at h
    · simp at h
    · rcases h2 : normalizeChildren fieldsFor rest d with e | cs3 <;> rw [h2] at h
      · simp at h
      · simp only [Except.ok.injEq] at h
        obtain ⟨ns, hns, hc2⟩ := normRec_group_ok fieldsFor glue gcs d c2 h1
        have hrec : normalizeFilterConditionsRecursive fieldsFor c2 d = .ok c2 :=
          normRec_idem fieldsFor (.group glue gcs) d c2 h1
            (fun l hl => hobj l (by rw [← h]; simp [leavesOfList]; exact Or.inl hl))
        have hrest : normalizeChildren fieldsFor cs3 d = .ok cs3 :=
          normChildren_idem fieldsFor rest d cs3 h2
            (fun l hl => hobj l (by rw [← h]; simp [leavesOfList]; exact Or.inr hl))
        rw [← h, hc2]
        simp only [normalizeChildren]
        rw [← hc2, hrec, hrest]

end

/-- Feeding a canonical two-branch group back into the root restructuring
reproduces it (up to the root-glue lower-casing). -/
theorem rootStructure_of_canonical (G : String) (ns1 ns2 : List CondVal) :
    normalizeFilterRootGroupStructure ⟨some G, some
      [CondVal.group "and" ns1, CondVal.group "or" ns2]⟩ =
    CondVal.group (strLower G) [CondVal.group "and" ns1, CondVal.group "or" ns2] := by
  unfold normalizeFilterRootGroupStructure
  dsimp only
  have hand : strLower "and" = "and" := by decide
  have hor : strLower "or" = "or" := by decide
  simp [isLeafB, isGroupB, hand, hor, List.find?]

/-- Conditional idempotence of full normalization: re-normalizing an output
whose leaves all have a nonempty object type reproduces it exactly. -/
theorem normalizeFilterConditions_idem (fieldsFor : String → List PipedriveField)
    (input : RootConditions) (type : String) (r : CondVal)
    (h : normalizeFilterConditions fieldsFor input type = .ok r)
    (hobj : ∀ l ∈ leavesOf r, ¬(l.object = "")) :
    normalizeFilterConditions fieldsFor (rootInputOf r) type = .ok r := by
  unfold normalizeFilterConditions at h
  dsimp only at h
  obtain ⟨g, as, os, hroot⟩ := normalizeFilterRootGroupStructure_shape input
  rw [hroot] at h
  rcases hr : normalizeFilterConditionsRecursive fieldsFor
      (CondVal.group g [CondVal.group "and" as, CondVal.group "or" os])
      (normalizeFilterObjectType type) with e | r2 <;> rw [hr] at h
  · simp at h
  · obtain ⟨cs2, hc, hr2⟩ := normRec_group_ok fieldsFor g _ _ r2 hr
    obtain ⟨ns1, ns2, hcs2, hn1, hn2⟩ :=
      normalizeChildren_two_groups fieldsFor "and" "or" as os _ cs2 hc
    have hand : strLower "and" = "and" := by decide
    have hor : strLower "or" = "or" := by decide
    rw [hand, hor] at hcs2
    have hgrp : isGroupB r2 = true := by rw [hr2]; rfl
    dsimp only at h
    rw [if_pos hgrp] at h
    simp only [Except.ok.injEq] at h
    have hrform : r = CondVal.group (strLower g)
        [CondVal.group "and" ns1, CondVal.group "or" ns2] := by
      rw [← h, hr2, hcs2]
    have hrec2 : normalizeFilterConditionsRecursive fieldsFor r
        (normalizeFilterObjectType type) = .ok r := by
      rw [← h]
      exact normRec_idem fieldsFor _ _ r2 hr (h ▸ hobj)
    unfold normalizeFilterConditions
    dsimp only
    rw [hrform, rootInputOf, rootStructure_of_canonical, strLower_strLower,
      ← hrform, hrec2]
    dsimp only
    rw [if_pos (show isGroupB r = true by rw [hrform]; rfl)]

/-- The flat-shorthand branch: a root whose conditions are all leaves
normalizes to an AND group holding the (leaf-normalized) conditions next to
an empty OR group. -/
theorem normalizeFilterConditions_shorthand (fieldsFor : String → List PipedriveField)
    (g : Option String) (cs : List CondVal) (type : String) (r : CondVal)
    (hall : cs.all isLeafB = true)
    (h : normalizeFilterConditions fieldsFor ⟨g, some cs⟩ type = .ok r) :
    ∃ ns, normalizeChildren fieldsFor cs (normalizeFilterObjectType type) = .ok ns ∧
      r = CondVal.group (rootGlueOf g)
        [CondVal.group "and" ns, CondVal.group "or" []] := by
  have main : ∀ (G0 : String), strLower G0 = G0 →
      normalizeFilterRootGroupStructure ⟨g, some cs⟩ =
        CondVal.group G0 [CondVal.group "and" cs, CondVal.group "or" []] →
      ∃ ns, normalizeChildren fieldsFor cs (normalizeFilterObjectType type) = .ok ns ∧
        r = CondVal.group G0 [CondVal.group "and" ns, CondVal.group "or" []] := by
    intro G0 hG0 hroot
    unfold normalizeFilterConditions at h
    dsimp only at h
    rw [hroot] at h
    rcases hr : normalizeFilterConditionsRecursive fieldsFor
        (CondVal.group G0 [CondVal.group "and" cs, CondVal.group "or" []])
        (normalizeFilterObjectType type) with e | r2 <;> rw [hr] at h
    · simp at h
    · obtain ⟨cs2, hc, hr2⟩ := normRec_group_ok fieldsFor _ _ _ r2 hr
      obtain ⟨ns1, ns2, hcs2, hn1, hn2⟩ :=
        normalizeChildren_two_groups fieldsFor "and" "or" cs [] _ cs2 hc
      have hand : strLower "and" = "and" := by decide
      have hor : strLower "or" = "or" := by decide
      rw [hand, hor] at hcs2
      have hn2e : ns2 = [] := by
        simp only [normalizeChildren, Except.ok.injEq] at hn2
        exact hn2.symm
      have hgrp : isGroupB r2 = true := by rw [hr2]; rfl
      dsimp only at h
      rw [if_pos hgrp] at h
      simp only [Except.ok.injEq] at h
      refine ⟨ns1, hn1, ?_⟩
      rw [← h, hr2, hcs2, hn2e, hG0]
  rcases g with _ | gs
  · exact main "and" (by decide)
      (by unfold normalizeFilterRootGroupStructure; dsimp only; rw [if_pos hall])
  · exact main (strLower gs) (strLower_strLower gs)
      (by unfold normalizeFilterRootGroupStructure; dsimp only; rw [if_pos hall])

/-- Counterexample to C6 as stated: the output of normalizing a leaf whose
`object` is the whitespace-only string `" "` is an already-canonical
two-branch tree whose single leaf carries the numeric field id 1, yet
re-normalizing it yields a different structure: the leaf's empty object type
is replaced by the default object type `"deal"`. -/
theorem normalization_idem_counterexample :
    normalizeFilterConditions (fun _ => [])
      ⟨some "and", some [CondVal.leaf ⟨" ", FieldIdV.num 1, "=", none, none⟩]⟩ "deal" =
      .ok (CondVal.group "and"
        [CondVal.group "and" [CondVal.leaf ⟨"", FieldIdV.num 1, "=", none, none⟩],
         CondVal.group "or" []]) ∧
    normalizeFilterConditions (fun _ => [])
      (rootInputOf (CondVal.group "and"
        [CondVal.group "and" [CondVal.leaf ⟨"", FieldIdV.num 1, "=", none, none⟩],
         CondVal.group "or" []])) "deal" =
      .ok (CondVal.group "and"
        [CondVal.group "and" [CondVal.leaf ⟨"deal", FieldIdV.num 1, "=", none, none⟩],
         CondVal.group "or" []]) ∧
    CondVal.group "and"
        [CondVal.group "and" [CondVal.leaf ⟨"deal", FieldIdV.num 1, "=", none, none⟩],
         CondVal.group "or" []] ≠
      CondVal.group "and"
        [CondVal.group "and" [CondVal.leaf ⟨"", FieldIdV.num 1, "=", none, none⟩],
         CondVal.group "or" []] :=
  ⟨by rfl, by rfl, by simp⟩

/-- C6 (amended): re-normalizing an output of condition normalization
reproduces it exactly whenever every leaf of that output carries a nonempty
object type (the leaf-level exception being a leaf whose object type
normalized to the empty string, which is re-normalized with the default
object type filled in); and a root whose conditions are all leaves
normalizes to exactly an AND group holding the leaf-normalized conditions
next to an empty OR group — in particular a flat list of two already
normalized leaves yields `{AND:[leaf1,leaf2], OR:[]}` verbatim. -/
theorem normalization_idem_and_shorthand :
    (∀ (fieldsFor : String → List PipedriveField) (input : RootConditions)
        (type : String) (r : CondVal),
      normalizeFilterConditions fieldsFor input type = .ok r →
      (∀ l ∈ leavesOf r, ¬(l.object = "")) →
      normalizeFilterConditions fieldsFor (rootInputOf r) type = .ok r) ∧
    (∀ (fieldsFor : String → List PipedriveField) (g : Option String)
        (cs : List CondVal) (type : String) (r : CondVal),
      cs.all isLeafB = true →
      normalizeFilterConditions fieldsFor ⟨g, some cs⟩ type = .ok r →
      ∃ ns, normalizeChildren fieldsFor cs (normalizeFilterObjectType type) = .ok ns ∧
        r = CondVal.group (rootGlueOf g)
          [CondVal.group "and" ns, CondVal.group "or" []]) ∧
    normalizeFilterConditions (fun _ => [])
      ⟨some "and", some [CondVal.leaf ⟨"deal", FieldIdV.num 1, "=", none, none⟩,
        CondVal.leaf ⟨"deal", FieldIdV.num 2, "=", none, none⟩]⟩ "deal" =
      .ok (CondVal.group "and"
        [CondVal.group "and" [CondVal.leaf ⟨"deal", FieldIdV.num 1, "=", none, none⟩,
          CondVal.leaf ⟨"deal", FieldIdV.num 2, "=", none, none⟩],
         CondVal.group "or" []]) :=
  ⟨normalizeFilterConditions_idem, normalizeFilterConditions_shorthand, by rfl⟩

/-- Witness for C6 (amended): both quantified parts applied to the concrete
flat two-leaf input. -/
theorem normalization_idem_and_shorthand_witness :
    normalizeFilterConditions (fun _ => [])
      (rootInputOf (CondVal.group "and"
        [CondVal.group "and" [CondVal.leaf ⟨"deal", FieldIdV.num 1, "=", none, none⟩,
          CondVal.leaf ⟨"deal", FieldIdV.num 2, "=", none, none⟩],
         CondVal.group "or" []])) "deal" =
      .ok (CondVal.group "and"
        [CondVal.group "and" [CondVal.leaf ⟨"deal", FieldIdV.num 1, "=", none, none⟩,
          CondVal.leaf ⟨"deal", FieldIdV.num 2, "=", none, none⟩],
         CondVal.group "or" []]) ∧
    (∃ ns, normalizeChildren (fun _ => [])
        [CondVal.leaf ⟨"deal", FieldIdV.num 1, "=", none, none⟩,
          CondVal.leaf ⟨"deal", FieldIdV.num 2, "=", none, none⟩]
        (normalizeFilterObjectType "deal") = .ok ns ∧
      CondVal.group "and"
        [CondVal.group "and" [CondVal.leaf ⟨"deal", FieldIdV.num 1, "=", none, none⟩,
          CondVal.leaf ⟨"deal", FieldIdV.num 2, "=", none, none⟩],
         CondVal.group "or" []] =
      CondVal.group (rootGlueOf (some "and"))
        [CondVal.group "and" ns, CondVal.group "or" []]) :=
  ⟨normalization_idem_and_shorthand.1 (fun _ => [])
      ⟨some "and", some [CondVal.leaf ⟨"deal", FieldIdV.num 1, "=", none, none⟩,
        CondVal.leaf ⟨"deal", FieldIdV.num 2, "=", none, none⟩]⟩ "deal"
      (CondVal.group "and"
        [CondVal.group "and" [CondVal.leaf ⟨"deal", FieldIdV.num 1, "=", none, none⟩,
          CondVal.leaf ⟨"deal", FieldIdV.num 2, "=", none, none⟩],
         CondVal.group "or" []])
      (by rfl) (by decide),
   normalization_idem_and_shorthand.2.1 (fun _ => []) (some "and")
      [CondVal.leaf ⟨"deal", FieldIdV.num 1, "=", none, none⟩,
        CondVal.leaf ⟨"deal", FieldIdV.num 2, "=", none, none⟩] "deal"
      (CondVal.group "and"
        [CondVal.group "and" [CondVal.leaf ⟨"deal", FieldIdV.num 1, "=", none, none⟩,
          CondVal.leaf ⟨"deal", FieldIdV.num 2, "=", none, none⟩],
         CondVal.group "or" []])
      (by decide) (by rfl)⟩

/-- C4: `days_overdue` is present if and only if the due date's calendar day
is strictly earlier than the "now" reference's calendar day, in which case
it is the count of whole calendar days between them; otherwise (same day,
future, or unparsable date) the field is entirely absent.  Concretely, for
now = 2026-02-16: due 2026-02-14 gives 2, due 2026-02-16 and 2026-02-17
give an absent field. -/
theorem enrichActivity_days_overdue :
    (∀ (companyDomain : String) (activity : Activity)
        (stagesMap : List (Nat × String)) (dealsMap : List (Nat × Deal))
        (personsMap : List (Nat × Person)) (orgsMap : List (Nat × Organization))
        (nowDay : Nat),
      (∀ dueDay, parseDateDay activity.due_date = some dueDay →
        (dueDay < nowDay →
          (enrichActivity companyDomain activity stagesMap dealsMap personsMap
            orgsMap nowDay).days_overdue = some (nowDay - dueDay)) ∧
        (¬dueDay < nowDay →
          (enrichActivity companyDomain activity stagesMap dealsMap personsMap
            orgsMap nowDay).days_overdue = none)) ∧
      (parseDateDay activity.due_date = none →
        (enrichActivity companyDomain activity stagesMap dealsMap personsMap
          orgsMap nowDay).days_overdue = none)) ∧
    (enrichActivity "app.pipedrive.com"
      ⟨1, "s", "call", "2026-02-14", "", 10, "", 0, "", 0, "", false⟩
      [] [] [] [] (daysFromCivil 2026 2 16)).days_overdue = some 2 ∧
    (enrichActivity "app.pipedrive.com"
      ⟨1, "s", "call", "2026-02-16", "", 10, "", 0, "", 0, "", false⟩
      [] [] [] [] (daysFromCivil 2026 2 16)).days_overdue = none ∧
    (enrichActivity "app.pipedrive.com"
      ⟨1, "s", "call", "2026-02-17", "", 10, "", 0, "", 0, "", false⟩
      [] [] [] [] (daysFromCivil 2026 2 16)).days_overdue = none := by
  refine ⟨?_, by rfl, by rfl, by rfl⟩
  intro companyDomain activity stagesMap dealsMap personsMap orgsMap nowDay
  constructor
  · intro dueDay hp
    constructor
    · intro hlt
      unfold enrichActivity
      dsimp only
      rw [hp]
      dsimp only
      rw [if_pos hlt]
    · intro hlt
      unfold enrichActivity
      dsimp only
      rw [hp]
      dsimp only
      rw [if_neg hlt]
  · intro hp
    unfold enrichActivity
    dsimp only
    rw [hp]

/-- Witness for C4: the quantified part applied to the concrete overdue
scenario (due 2026-02-14, now 2026-02-16). -/
theorem enrichActivity_days_overdue_witness :
    (enrichActivity "app.pipedrive.com"
      ⟨1, "s", "call", "2026-02-14", "", 10, "", 0, "", 0, "", false⟩
      [] [] [] [] (daysFromCivil 2026 2 16)).days_overdue =
      some (daysFromCivil 2026 2 16 - daysFromCivil 2026 2 14) :=
  ((enrichActivity_days_overdue.1 "app.pipedrive.com"
      ⟨1, "s", "call", "2026-02-14", "", 10, "", 0, "", 0, "", false⟩
      [] [] [] [] (daysFromCivil 2026 2 16)).1
    (daysFromCivil 2026 2 14) (by rfl)).1 (by decide)

/-- Counterexample to C7 as stated: an activity referencing person 10 with
no denormalized person name, while the bulk-fetched map knows person 10 as
"Maria" — the enriched person name is the literal "Unknown", not the
bulk-fetched name the claim requires as fallback. -/
theorem enrichActivity_person_name_counterexample :
    (enrichActivity "app.pipedrive.com"
      ⟨1, "s", "call", "2026-02-14", "", 10, "", 0, "", 0, "", false⟩
      [] [] [(10, ⟨10, "Maria", [], [], 0⟩)] [] (daysFromCivil 2026 2 16)).person =
      some ⟨10, "Unknown", none⟩ ∧
    ("Unknown" : String) ≠ "Maria" :=
  ⟨by rfl, by decide⟩

/-- C7 (amended): nested sub-objects are omitted (`null`) exactly when the
identifier is absent (`0`) on the source record; the deal title and the
organization names follow the fallback chain "source denormalized name,
then bulk-fetched name, then default" (default `""` for the deal title and
`"Unknown"` for names), the deal-item person name does too, but the
activity-item person name falls back directly from the source name to
`"Unknown"` without consulting the bulk-fetched person (which only supplies
the email). -/
theorem enrich_subobject_names :
    (∀ (companyDomain : String) (activity : Activity)
        (stagesMap : List (Nat × String)) (dealsMap : List (Nat × Deal))
        (personsMap : List (Nat × Person)) (orgsMap : List (Nat × Organization))
        (nowDay : Nat),
      (activity.deal_id = 0 →
        (enrichActivity companyDomain activity stagesMap dealsMap personsMap
          orgsMap nowDay).deal = none) ∧
      (activity.person_id = 0 →
        (enrichActivity companyDomain activity stagesMap dealsMap personsMap
          orgsMap nowDay).person = none) ∧
      (activity.org_id = 0 →
        (enrichActivity companyDomain activity stagesMap dealsMap personsMap
          orgsMap nowDay).org = none) ∧
      (activity.deal_id ≠ 0 → ∃ dr,
        (enrichActivity companyDomain activity stagesMap dealsMap personsMap
          orgsMap nowDay).deal = some dr ∧
        dr.deal_id = activity.deal_id ∧
        dr.title = specNameFallback activity.deal_title
          ((mapGet dealsMap activity.deal_id).map Deal.title) "") ∧
      (activity.person_id ≠ 0 → ∃ pr,
        (enrichActivity companyDomain activity stagesMap dealsMap personsMap
          orgsMap nowDay).person = some pr ∧
        pr.id = activity.person_id ∧
        pr.name = specNameFallback activity.person_name none "Unknown") ∧
      (activity.org_id ≠ 0 → ∃ orr,
        (enrichActivity companyDomain activity stagesMap dealsMap personsMap
          orgsMap nowDay).org = some orr ∧
        orr.id = activity.org_id ∧
        orr.name = specNameFallback activity.org_name
          ((mapGet orgsMap activity.org_id).map Organization.name) "Unknown")) ∧
    (∀ (companyDomain : String) (deal : Deal) (stagesMap : List (Nat × String))
        (personsMap : List (Nat × Person)) (orgsMap : List (Nat × Organization)),
      (deal.person_id = 0 →
        (enrichDeal companyDomain deal stagesMap personsMap orgsMap).person = none) ∧
      (deal.org_id = 0 →
        (enrichDeal companyDomain deal stagesMap personsMap orgsMap).org = none) ∧
      (deal.person_id ≠ 0 → ∃ pr,
        (enrichDeal companyDomain deal stagesMap personsMap orgsMap).person = some pr ∧
        pr.id = deal.person_id ∧
        pr.name = specNameFallback deal.person_name
          ((mapGet personsMap deal.person_id).map Person.name) "Unknown") ∧
      (deal.org_id ≠ 0 → ∃ orr,
        (enrichDeal companyDomain deal stagesMap personsMap orgsMap).org = some orr ∧
        orr.id = deal.org_id ∧
        orr.name = specNameFallback deal.org_name
          ((mapGet orgsMap deal.org_id).map Organization.name) "Unknown")) := by
  have chain : ∀ (src : String) (bulk : Option String) (dflt : String),
      jsOrStr src (jsOrStr (match bulk with
        | some s => s
        | none => "") dflt) = specNameFallback src bulk dflt := by
    intro src bulk dflt
    unfold jsOrStr specNameFallback
    rcases bulk with _ | s
    · simp
    · rfl
  have jsempty : ∀ x : String, jsOrStr x "" = x := by
    intro x
    unfold jsOrStr
    by_cases hx : x = ""
    · rw [if_pos hx, hx]
    · rw [if_neg hx]
  constructor
  · intro companyDomain activity stagesMap dealsMap personsMap orgsMap nowDay
    refine ⟨?_, ?_, ?_, ?_, ?_, ?_⟩
    · intro h
      unfold enrichActivity
      dsimp only
      rw [if_neg (by simpa using h)]
    · intro h
      unfold enrichActivity
      dsimp only
      rw [if_neg (by simpa using h)]
    · intro h
      unfold enrichActivity
      dsimp only
      rw [if_neg (by simpa using h)]
    · intro h
      unfold enrichActivity
      dsimp only
      rw [if_pos h]
      refine ⟨_, rfl, rfl, ?_⟩
      dsimp only
      rw [← chain]
      rcases mapGet dealsMap activity.deal_id with _ | dd
      · rfl
      · dsimp only
        rw [jsempty]
        rfl
    · intro h
      unfold enrichActivity
      dsimp only
      rw [if_pos h]
      exact ⟨_, rfl, rfl, rfl⟩
    · intro h
      unfold enrichActivity
      dsimp only
      rw [if_pos h]
      refine ⟨_, rfl, rfl, ?_⟩
      dsimp only
      rw [← chain]
      rcases mapGet orgsMap activity.org_id with _ | o <;> rfl
  · intro companyDomain deal stagesMap personsMap orgsMap
    refine ⟨?_, ?_, ?_, ?_⟩
    · intro h
      unfold enrichDeal
      dsimp only
      rw [if_neg (by simpa using h)]
    · intro h
      unfold enrichDeal
      dsimp only
      rw [if_neg (by simpa using h)]
    · intro h
      unfold enrichDeal
      dsimp only
      rw [if_pos h]
      refine ⟨_, rfl, rfl, ?_⟩
      dsimp only
      rw [← chain]
      rcases mapGet personsMap deal.person_id with _ | p <;> rfl
    · intro h
      unfold enrichDeal
      dsimp only
      rw [if_pos h]
      refine ⟨_, rfl, rfl, ?_⟩
      dsimp only
      rw [← chain]
      rcases mapGet orgsMap deal.org_id with _ | o <;> rfl

/-- Witness for C7 (amended): the activity-person clause and the deal-org
clause applied to concrete records. -/
theorem enrich_subobject_names_witness :
    (∃ pr, (enrichActivity "app.pipedrive.com"
        ⟨1, "s", "call", "2026-02-14", "", 10, "", 0, "", 0, "", false⟩
        [] [] [(10, ⟨10, "Maria", [], [], 0⟩)] [] 0).person = some pr ∧
      pr.id = 10 ∧
      pr.name = specNameFallback "" none "Unknown") ∧
    (∃ orr, (enrichDeal "app.pipedrive.com"
        ⟨789, "t", 0, "EUR", 2, 0, "", 7, "", "open", "", "",
          none, none, none, none, none⟩
        [] [] [(7, ⟨7, "Acme", none, none⟩)]).org = some orr ∧
      orr.id = 7 ∧
      orr.name = specNameFallback ""
        ((mapGet [(7, (⟨7, "Acme", none, none⟩ : Organization))] 7).map
          Organization.name) "Unknown") :=
  ⟨(enrich_subobject_names.1 "app.pipedrive.com"
      ⟨1, "s", "call", "2026-02-14", "", 10, "", 0, "", 0, "", false⟩
      [] [] [(10, ⟨10, "Maria", [], [], 0⟩)] [] 0).2.2.2.2.1 (by decide),
   (enrich_subobject_names.2 "app.pipedrive.com"
      ⟨789, "t", 0, "EUR", 2, 0, "", 7, "", "open", "", "",
        none, none, none, none, none⟩
      [] [] [(7, ⟨7, "Acme", none, none⟩)]).2.2.2 (by decide)⟩

/-- Counterexample to C8 as stated: a deal with an absent `owner_id` yields
an `undefined` owner id on the output record (the key is simply omitted
from the JSON), not the `null` substitution the claim requires. -/
theorem enrichDeal_owner_counterexample :
    (enrichDeal "app.pipedrive.com"
      ⟨789, "t", 0, "EUR", 2, 0, "", 0, "", "open", "", "",
        none, none, none, none, none⟩
      [] [] []).owner_id = JsOpt.undef ∧
    (JsOpt.undef : JsOpt Nat) ≠ JsOpt.null :=
  ⟨by rfl, by intro h; exact JsOpt.noConfusion h⟩

/-- C8 (amended): the enriched deal record passes the five metadata fields
through verbatim when present (and truthy); an absent next-activity id or
mail timestamp becomes an explicit `null`, while an absent owner id or
undone-activity count stays `undefined` (the key is omitted), not `null`;
no days-overdue computation exists for deals (`DealItem` has no such
field). -/
theorem enrichDeal_passthrough :
    ∀ (companyDomain : String) (deal : Deal) (stagesMap : List (Nat × String))
      (personsMap : List (Nat × Person)) (orgsMap : List (Nat × Organization)),
      (∀ n, deal.owner_id = some n →
        (enrichDeal companyDomain deal stagesMap personsMap orgsMap).owner_id =
          JsOpt.val n) ∧
      (deal.owner_id = none →
        (enrichDeal companyDomain deal stagesMap personsMap orgsMap).owner_id =
          JsOpt.undef) ∧
      (∀ n, deal.undone_activities_count = some n →
        (enrichDeal companyDomain deal stagesMap personsMap orgsMap).undone_activities_count =
          JsOpt.val n) ∧
      (deal.undone_activities_count = none →
        (enrichDeal companyDomain deal stagesMap personsMap orgsMap).undone_activities_count =
          JsOpt.undef) ∧
      (∀ n, deal.next_activity_id = some n → ¬(n = 0) →
        (enrichDeal companyDomain deal stagesMap personsMap orgsMap).next_activity_id =
          JsOpt.val n) ∧
      (deal.next_activity_id = none ∨ deal.next_activity_id = some 0 →
        (enrichDeal companyDomain deal stagesMap personsMap orgsMap).next_activity_id =
          JsOpt.null) ∧
      (∀ s, deal.last_outgoing_mail_time = some s → ¬(s = "") →
        (enrichDeal companyDomain deal stagesMap personsMap orgsMap).last_outgoing_mail_time =
          JsOpt.val s) ∧
      (deal.last_outgoing_mail_time = none ∨ deal.last_outgoing_mail_time = some "" →
        (enrichDeal companyDomain deal stagesMap personsMap orgsMap).last_outgoing_mail_time =
          JsOpt.null) ∧
      (∀ s, deal.last_incoming_mail_time = some s → ¬(s = "") →
        (enrichDeal companyDomain deal stagesMap personsMap orgsMap).last_incoming_mail_time =
          JsOpt.val s) ∧
      (deal.last_incoming_mail_time = none ∨ deal.last_incoming_mail_time = some "" →
        (enrichDeal companyDomain deal stagesMap personsMap orgsMap).last_incoming_mail_time =
          JsOpt.null) := by
  intro companyDomain deal stagesMap personsMap orgsMap
  refine ⟨?_, ?_, ?_, ?_, ?_, ?_, ?_, ?_, ?_, ?_⟩
  · intro n h
    unfold enrichDeal
    dsimp only
    rw [h]
  · intro h
    unfold enrichDeal
    dsimp only
    rw [h]
  · intro n h
    unfold enrichDeal
    dsimp only
    rw [h]
  · intro h
    unfold enrichDeal
    dsimp only
    rw [h]
  · intro n h hn
    unfold enrichDeal
    dsimp only
    rw [h]
    dsimp only
    rw [if_neg hn]
  · intro h
    unfold enrichDeal
    dsimp only
    rcases h with h | h <;> rw [h]
    dsimp only
    rw [if_pos rfl]
  · intro s h hs
    unfold enrichDeal
    dsimp only
    rw [h]
    dsimp only
    rw [if_neg hs]
  · intro h
    unfold enrichDeal
    dsimp only
    rcases h with h | h <;> rw [h]
    dsimp only
    rw [if_pos rfl]
  · intro s h hs
    unfold enrichDeal
    dsimp only
    rw [h]
    dsimp only
    rw [if_neg hs]
  · intro h
    unfold enrichDeal
    dsimp only
    rcases h with h | h <;> rw [h]
    dsimp only
    rw [if_pos rfl]

/-- Witness for C8 (amended): a deal carrying all five metadata fields. -/
theorem enrichDeal_passthrough_witness :
    (enrichDeal "app.pipedrive.com"
      ⟨789, "t", 0, "EUR", 2, 0, "", 0, "", "open", "", "",
        some 4, some 9, some 3, some "2026-01-01", some "2026-01-02"⟩
      [] [] []).owner_id = JsOpt.val 4 ∧
    (enrichDeal "app.pipedrive.com"
      ⟨789, "t", 0, "EUR", 2, 0, "", 0, "", "open", "", "",
        some 4, some 9, some 3, some "2026-01-01", some "2026-01-02"⟩
      [] [] []).next_activity_id = JsOpt.val 9 ∧
    (enrichDeal "app.pipedrive.com"
      ⟨789, "t", 0, "EUR", 2, 0, "", 0, "", "open", "", "",
        none, none, none, none, none⟩
      [] [] []).next_activity_id = JsOpt.null :=
  ⟨(enrichDeal_passthrough "app.pipedrive.com"
      ⟨789, "t", 0, "EUR", 2, 0, "", 0, "", "open", "", "",
        some 4, some 9, some 3, some "2026-01-01", some "2026-01-02"⟩
      [] [] []).1 4 rfl,
   (enrichDeal_passthrough "app.pipedrive.com"
      ⟨789, "t", 0, "EUR", 2, 0, "", 0, "", "open", "", "",
        some 4, some 9, some 3, some "2026-01-01", some "2026-01-02"⟩
      [] [] []).2.2.2.2.1 9 rfl (by decide),
   (enrichDeal_passthrough "app.pipedrive.com"
      ⟨789, "t", 0, "EUR", 2, 0, "", 0, "", "open", "", "",
        none, none, none, none, none⟩
      [] [] []).2.2.2.2.2.1 (Or.inl rfl)⟩

/-- C9: a raw reference value that is a bare number yields that number as
the identifier with an empty display name; a structured value with a
numeric `value` member and a string `name` member yields that id and name.
Concretely, a deal whose raw `person_id` is the bare integer 10 normalizes
to identifier 10 with no display name, and one whose raw `person_id` is
`{value: 10, name: "Maria"}` normalizes to identifier 10 and display name
"Maria". -/
theorem reference_value_normalization :
    (∀ n, getReferenceId (RefRaw.num n) = n ∧
      getReferenceName (RefRaw.num n) = "") ∧
    (∀ (ov nv : Option RefRaw) (n : Nat) (s : String),
      ov = some (RefRaw.num n) → nv = some (RefRaw.str s) →
      getReferenceId (RefRaw.obj ov nv) = n ∧
      getReferenceName (RefRaw.obj ov nv) = s) ∧
    ((normalizeDeal ⟨789, "t", 0, "EUR", 2, RefRaw.num 10, "", RefRaw.undef, "",
        "open", "", "", RefRaw.undef, RefRaw.undef, none, none, none⟩).person_id = 10 ∧
     (normalizeDeal ⟨789, "t", 0, "EUR", 2, RefRaw.num 10, "", RefRaw.undef, "",
        "open", "", "", RefRaw.undef, RefRaw.undef, none, none, none⟩).person_name = "") ∧
    ((normalizeDeal ⟨789, "t", 0, "EUR", 2,
        RefRaw.obj (some (RefRaw.num 10)) (some (RefRaw.str "Maria")), "",
        RefRaw.undef, "", "open", "", "", RefRaw.undef, RefRaw.undef,
        none, none, none⟩).person_id = 10 ∧
     (normalizeDeal ⟨789, "t", 0, "EUR", 2,
        RefRaw.obj (some (RefRaw.num 10)) (some (RefRaw.str "Maria")), "",
        RefRaw.undef, "", "open", "", "", RefRaw.undef, RefRaw.undef,
        none, none, none⟩).person_name = "Maria") := by
  refine ⟨fun n => ⟨rfl, rfl⟩, ?_, ⟨rfl, rfl⟩, ⟨rfl, rfl⟩⟩
  intro ov nv n s h1 h2
  rw [h1, h2]
  exact ⟨rfl, rfl⟩

/-- Witness for C9: the structured-value clause at `{value: 10,
name: "Maria"}`. -/
theorem reference_value_normalization_witness :
    getReferenceId (RefRaw.obj (some (RefRaw.num 10)) (some (RefRaw.str "Maria"))) = 10 ∧
    getReferenceName (RefRaw.obj (some (RefRaw.num 10)) (some (RefRaw.str "Maria"))) = "Maria" :=
  reference_value_normalization.2.1 (some (RefRaw.num 10)) (some (RefRaw.str "Maria"))
    10 "Maria" rfl rfl

/-- C10: the single-entity fetches `getPerson` / `getOrganization` /
`getStage` never propagate an error: any failure of the underlying fetch
(not-found, network or server) is converted to the same `null` result an
`ok` response with no entity produces, and a successful response's payload
is returned as-is. -/
theorem single_entity_fetch_total :
    (∀ (get : String → Except String (Option Person)) (personId : Nat),
      (∀ e, get ("/persons/" ++ natToDecimal personId) = .error e →
        getPerson get personId = none) ∧
      (∀ p, get ("/persons/" ++ natToDecimal personId) = .ok p →
        getPerson get personId = p)) ∧
    (∀ (get : String → Except String (Option Organization)) (orgId : Nat),
      (∀ e, get ("/organizations/" ++ natToDecimal orgId) = .error e →
        getOrganization get orgId = none) ∧
      (∀ p, get ("/organizations/" ++ natToDecimal orgId) = .ok p →
        getOrganization get orgId = p)) ∧
    (∀ (get : String → Except String (Option Stage)) (stageId : Nat),
      (∀ e, get ("/stages/" ++ natToDecimal stageId) = .error e →
        getStage get stageId = none) ∧
      (∀ p, get ("/stages/" ++ natToDecimal stageId) = .ok p →
        getStage get stageId = p)) := by
  refine ⟨?_, ?_, ?_⟩
  · intro get personId
    constructor
    · intro e h
      unfold getPerson
      rw [h]
    · intro p h
      unfold getPerson
      rw [h]
  · intro get orgId
    constructor
    · intro e h
      unfold getOrganization
      rw [h]
    · intro p h
      unfold getOrganization
      rw [h]
  · intro get stageId
    constructor
    · intro e h
      unfold getStage
      rw [h]
    · intro p h
      unfold getStage
      rw [h]

/-- Witness for C10: a network failure on every call is converted into a
`null` person. -/
theorem single_entity_fetch_total_witness :
    getPerson (fun _ => .error "network down") 10 = none :=
  (single_entity_fetch_total.1 (fun _ => .error "network down") 10).1
    "network down" rfl
